import Mathlib

/-!
Verification development for the literumilo Esperanto spell checker
(a Rust program).  The Rust sources are embedded shallowly: strings are
lists of characters, the dictionary hash map is a lookup function,
mutation of the morpheme buffer is explicit state passing, and the one
partial operation of the program (indexing into the original word in
restore_capitals) is modelled with Option, where none stands for a panic.

Renamings forced by the proof environment (the Rust names are kept
everywhere else): the part-of-speech and synthesis constructors named
Prefix in Rust are called Prefikso here (the Esperanto word used in the
program comments), and the helper functions check_prefix,
check_prepositional_prefix and check_adverbial_prefix are called
check_prefikso, check_prepositional_prefikso and check_adverbial_prefikso.
The Rust function check_synthesis takes a last_morpheme flag; it is split
into check_synthesis_last (the flag is true: validate the completed word)
and check_synthesis_cont (the flag is false: keep dividing the word).
-/

namespace Literumilo

/-- Shorthand: the characters of a string literal. -/
def str (s : String) : List Char := s.data

/-- Macro is_hyphen from macros.rs: ordinary hyphen 0x2D or soft hyphen 0xAD. -/
def is_hyphen (c : Char) : Bool :=
  c.toNat = 0x2D ∨ c.toNat = 0xAD

/-- Macro is_word_char from macros.rs: ASCII letters, the block U+00C0 to U+02AF,
and the two hyphen characters. -/
def is_word_char (c : Char) : Bool :=
  (0x61 ≤ c.toNat ∧ c.toNat ≤ 0x7A) ∨
  (0x41 ≤ c.toNat ∧ c.toNat ≤ 0x5A) ∨
  (0xC0 ≤ c.toNat ∧ c.toNat ≤ 0x2AF) ∨
  c.toNat = 0x2D ∨ c.toNat = 0xAD

/-- Model of the Rust standard library char::to_lowercase, as used by
String::to_lowercase in the program.  The Unicode mappings relevant to this
development are embedded: ASCII capitals, the Latin-1 capitals U+00C0..U+00DE
(excluding the multiplication sign U+00D7), the six accented Esperanto
capitals, and the sole expanding mapping of Unicode lowercasing,
U+0130 (capital I with dot above), which lowers to the two characters
i followed by U+0307 (combining dot above).  Other characters are mapped to
themselves. -/
def rustLowerChar (c : Char) : List Char :=
  if c.toNat = 0x130 then [Char.ofNat 0x69, Char.ofNat 0x307]
  else if 0x41 ≤ c.toNat ∧ c.toNat ≤ 0x5A then [Char.ofNat (c.toNat + 0x20)]
  else if 0xC0 ≤ c.toNat ∧ c.toNat ≤ 0xDE ∧ c.toNat ≠ 0xD7 then
    [Char.ofNat (c.toNat + 0x20)]
  else if c.toNat = 0x108 ∨ c.toNat = 0x11C ∨ c.toNat = 0x124 ∨
          c.toNat = 0x134 ∨ c.toNat = 0x15C ∨ c.toNat = 0x16C then
    [Char.ofNat (c.toNat + 1)]
  else [c]

/-- Model of String::to_lowercase: lowercase every character and concatenate. -/
def rustLowerStr (l : List Char) : List Char :=
  (l.map rustLowerChar).flatten

/-- Function remove_hyphens from lib.rs: delete both hyphen characters. -/
def remove_hyphens (l : List Char) : List Char :=
  l.filter (fun c => ¬ is_hyphen c)

/-- Delete the morpheme-separating periods of an analyzed form. -/
def removeDots (l : List Char) : List Char :=
  l.filter (fun c => c ≠ '.')

/-- Character count of a string once its periods are removed. -/
def nonDotLen (l : List Char) : Nat :=
  (removeDots l).length

/-- The UTF-8 byte size of one character (what String::len counts in Rust). -/
def utf8SizeOf (c : Char) : Nat :=
  if c.toNat < 0x80 then 1
  else if c.toNat < 0x800 then 2
  else if c.toNat < 0x10000 then 3
  else 4

/-- The UTF-8 byte length of a string: Rust String::len. -/
def utf8Len (l : List Char) : Nat :=
  (l.map utf8SizeOf).sum

/-- Function restore_capitals from lib.rs, as a recursion over the analyzed
string with an index into the original.  The Rust code indexes
original_chars[index] and panics when the index is out of bounds; the panic is
modelled as none. -/
def restore_capitals_go (original : List Char) (index : Nat) :
    List Char → Option (List Char)
  | [] => some []
  | ch :: rest =>
    if ch = '.' then
      (restore_capitals_go original index rest).map (fun r => '.' :: r)
    else
      match original.get? index with
      | none => none
      | some c => (restore_capitals_go original (index + 1) rest).map
          (fun r => c :: r)

/-- Function restore_capitals from lib.rs. -/
def restore_capitals (original analyzed : List Char) : Option (List Char) :=
  restore_capitals_go original 0 analyzed

/-- Part of speech, from entry.rs.  The declaration order is load bearing:
the Rust code derives PartialOrd and compares categories by ordinal. -/
inductive POS where
  | Substantive
  | SubstantiveVerb
  | Verb
  | Adjective
  | Number
  | Adverb
  | Pronoun
  | PronounAdjective
  | Preposition
  | Conjunction
  | Subjunction
  | Interjection
  | Prefikso
  | TechPrefikso
  | Suffix
  | Article
  | Participle
  | Abbreviation
  | Letter
deriving DecidableEq

/-- The ordinal of a part of speech: the rank used by the derived PartialOrd
comparisons of the Rust code. -/
def POS.rank : POS → Nat
  | .Substantive => 0
  | .SubstantiveVerb => 1
  | .Verb => 2
  | .Adjective => 3
  | .Number => 4
  | .Adverb => 5
  | .Pronoun => 6
  | .PronounAdjective => 7
  | .Preposition => 8
  | .Conjunction => 9
  | .Subjunction => 10
  | .Interjection => 11
  | .Prefikso => 12
  | .TechPrefikso => 13
  | .Suffix => 14
  | .Article => 15
  | .Participle => 16
  | .Abbreviation => 17
  | .Letter => 18

/-- Capitalization, from entry.rs. -/
inductive Capitalization where
  | Miniscule
  | Majuscule
  | AllCaps
deriving DecidableEq

/-- Meaning (semantic domain of a morpheme), from entry.rs. -/
inductive Meaning where
  | NeKonata
  | Legomo
  | Boato
  | Krustulo
  | Insulo
  | Religio
  | Herbo
  | Koloro
  | Planto
  | Festo
  | Libro
  | Loko
  | Drogo
  | Lago
  | Pseuxdoscienco
  | ReligiaPosteno
  | Profesio
  | Gramatiko
  | Ehxinodermo
  | Medikamento
  | Regiono
  | Biologio
  | Birdo
  | Urbo
  | Veturilo
  | Lando
  | Etno
  | Kanto
  | Vestajxo
  | Titolo
  | Reganto
  | Rivero
  | Arto
  | Erao
  | Provinco
  | Muziko
  | Persono
  | Sxtato
  | Mamulo
  | Fisxo
  | Mezurunuo
  | Fungo
  | Kuracarto
  | Armilo
  | Algo
  | Koelentero
  | Nukso
  | Monto
  | Geografio
  | Tehxnologio
  | Monato
  | Arkitekturo
  | Insularo
  | Metio
  | Astronomio
  | Kredo
  | Molusko
  | Reptilio
  | Trinkajxo
  | Animalo
  | Insekto
  | Frukto
  | Arbusto
  | Araknido
  | Aviadilo
  | Sporto
  | Elemento
  | Alojo
  | ReligiaPersono
  | ReligiaProfesio
  | Kemiajxo
  | Filozofio
  | Sxtofo
  | Posteno
  | Parenco
  | Konstruajxo
  | Cerealo
  | Danco
  | Tago
  | Poemo
  | Sxipo
  | Ludilo
  | Poezio
  | Cxambro
  | Mangxajxo
  | Astro
  | Ilo
  | Mikrobo
  | Ludo
  | Dezerto
  | MitaBesto
  | Dramo
  | Vetero
  | Arbo
  | Scienco
  | Ornamajxo
  | Vermo
  | Mineralo
  | Spico
  | Masxino
  | Kontinento
  | Periodo
  | Lingvo
  | Mezurilo
  | Maro
  | Montaro
  | MitaPersono
  | Fonetiko
  | Monero
  | Matematiko
  | Rango
  | Anatomio
  | Studo
  | Optiko
  | Amfibio
  | Malsano
  | Muzikilo
  | Geometrio
deriving DecidableEq

/-- Function is_person from entry.rs. -/
def is_person (meaning : Meaning) : Bool :=
  match meaning with
  | .Persono => true
  | .Parenco => true
  | .Etno => true
  | .Profesio => true
  | .Rango => true
  | .Reganto => true
  | .Titolo => true
  | .Posteno => true
  | .ReligiaPosteno => true
  | .ReligiaPersono => true
  | .ReligiaProfesio => true
  | .MitaPersono => true
  | _ => false

/-- Function is_animal from entry.rs. -/
def is_animal (meaning : Meaning) : Bool :=
  match meaning with
  | .Animalo => true
  | .Mamulo => true
  | .Birdo => true
  | .Fisxo => true
  | .Reptilio => true
  | .MitaBesto => true
  | .Insekto => true
  | .Araknido => true
  | .Molusko => true
  | .Amfibio => true
  | _ => false

/-- Transitivity, from entry.rs. -/
inductive Transitivity where
  | Transitive
  | Intransitive
  | Both
deriving DecidableEq

/-- WithoutEnding, from entry.rs. -/
inductive WithoutEnding where
  | Yes
  | No
deriving DecidableEq

/-- WithEnding, from entry.rs. -/
inductive WithEnding where
  | Yes
  | No
deriving DecidableEq

/-- Synthesis (combinability class), from entry.rs.  The Rust constructor
Prefix is called Prefikso here. -/
inductive Synthesis where
  | Suffix
  | Prefikso
  | Participle
  | Limited
  | UnLimited
  | No
deriving DecidableEq

/-- Flag, from entry.rs. -/
inductive Flag where
  | Simple
  | Compound
  | Exclude
  | Separator
deriving DecidableEq

/-- A dictionary entry, from entry.rs. -/
structure Entry where
  word : List Char
  length : Nat
  capitalization : Capitalization
  part_of_speech : POS
  meaning : Meaning
  transitivity : Transitivity
  without_ending : WithoutEnding
  with_ending : WithEnding
  synthesis : Synthesis
  rarity : Nat
  flag : Flag
deriving DecidableEq

/-- Entry::empty from entry.rs. -/
def Entry.empty : Entry :=
  { word := []
    length := 0
    part_of_speech := POS.Substantive
    capitalization := Capitalization.Miniscule
    meaning := Meaning.NeKonata
    transitivity := Transitivity.Transitive
    without_ending := WithoutEnding.No
    with_ending := WithEnding.No
    synthesis := Synthesis.No
    rarity := 0
    flag := Flag.Simple }

/-- Entry::new_separator from entry.rs. -/
def Entry.new_separator (separator : List Char) : Option Entry :=
  let pos? : Option POS :=
    if separator = str "o" then some POS.Substantive
    else if separator = str "a" then some POS.Adjective
    else if separator = str "e" then some POS.Adverb
    else none
  match pos? with
  | none => none
  | some pos => some
    { word := separator
      length := 1
      part_of_speech := pos
      capitalization := Capitalization.Miniscule
      meaning := Meaning.NeKonata
      transitivity := Transitivity.Intransitive
      without_ending := WithoutEnding.No
      with_ending := WithEnding.No
      synthesis := Synthesis.No
      rarity := 4
      flag := Flag.Separator }

/-- The dictionary: the program looks words up in a HashMap built by
make_dictionary in vortaro.rs; the map is modelled by its lookup function. -/
def Dict : Type := List Char → Option Entry

/-- A grammatical ending, from ending.rs. -/
structure Ending where
  ending : List Char
  length : Nat
  pos : POS
deriving DecidableEq

def SUB_O : Ending := { ending := str "o", length := 1, pos := POS.Substantive }

def SUB_ON : Ending := { ending := str "on", length := 2, pos := POS.Substantive }

def SUB_OJ : Ending := { ending := str "oj", length := 2, pos := POS.Substantive }

def SUB_OJN : Ending := { ending := str "ojn", length := 3, pos := POS.Substantive }

def VERB_IS : Ending := { ending := str "is", length := 2, pos := POS.Verb }

def VERB_AS : Ending := { ending := str "as", length := 2, pos := POS.Verb }

def VERB_OS : Ending := { ending := str "os", length := 2, pos := POS.Verb }

def VERB_I : Ending := { ending := str "i", length := 1, pos := POS.Verb }

def VERB_U : Ending := { ending := str "u", length := 1, pos := POS.Verb }

def VERB_US : Ending := { ending := str "us", length := 2, pos := POS.Verb }

def ADJ_A : Ending := { ending := str "a", length := 1, pos := POS.Adjective }

def ADJ_AN : Ending := { ending := str "an", length := 2, pos := POS.Adjective }

def ADJ_AJ : Ending := { ending := str "aj", length := 2, pos := POS.Adjective }

def ADJ_AJN : Ending := { ending := str "ajn", length := 3, pos := POS.Adjective }

def ADV_E : Ending := { ending := str "e", length := 1, pos := POS.Adverb }

def ADV_EN : Ending := { ending := str "en", length := 2, pos := POS.Adverb }

/-- Ending::new from ending.rs, on the reversed character list (the Rust code
walks a reversed character iterator); length is the character count of the
whole word. -/
def Ending.newAux (length : Nat) : List Char → Option Ending
  | [] => none
  | last :: rest =>
    if length < 3 then none
    else if last = 'o' then some SUB_O
    else if last = 's' then
      if length < 4 then none
      else
        match rest with
        | [] => none
        | second_last :: _ =>
          if second_last = 'a' then some VERB_AS
          else if second_last = 'i' then some VERB_IS
          else if second_last = 'o' then some VERB_OS
          else if second_last = 'u' then some VERB_US
          else none
    else if last = 'n' then
      if length < 4 then none
      else
        match rest with
        | [] => none
        | second_last :: rest2 =>
          if second_last = 'o' then some SUB_ON
          else if second_last = 'a' then some ADJ_AN
          else if second_last = 'e' then some ADV_EN
          else if second_last = 'j' then
            if length < 5 then none
            else
              match rest2 with
              | [] => none
              | third_last :: _ =>
                if third_last = 'o' then some SUB_OJN
                else if third_last = 'a' then some ADJ_AJN
                else none
          else none
    else if last = 'j' then
      if length < 4 then none
      else
        match rest with
        | [] => none
        | second_last :: _ =>
          if second_last = 'o' then some SUB_OJ
          else if second_last = 'a' then some ADJ_AJ
          else none
    else if last = 'a' then some ADJ_A
    else if last = 'e' then some ADV_E
    else if last = 'i' then some VERB_I
    else if last = 'u' then some VERB_U
    else none

/-- Ending::new from ending.rs. -/
def Ending.new (original_word : List Char) : Option Ending :=
  Ending.newAux original_word.length original_word.reverse

/-- The morpheme list, from morpheme_list.rs: a buffer of MAX_MORPHEMES = 9
entries, the index last written to, and the grammatical ending of the word. -/
structure Morphemes where
  last_index : Nat
  morpheme_list : List Entry
  ending : Ending
deriving DecidableEq

/-- Morphemes::new from morpheme_list.rs: nine empty placeholder entries. -/
def Morphemes.new (ending : Ending) : Morphemes :=
  { last_index := 0
    morpheme_list := List.replicate 9 Entry.empty
    ending := ending }

/-- Morphemes::get from morpheme_list.rs (Vec::get, an Option). -/
def Morphemes.get (ml : Morphemes) (index : Nat) : Option Entry :=
  ml.morpheme_list.get? index

/-- Morphemes::put from morpheme_list.rs: overwrite the slot, record the index. -/
def Morphemes.put (ml : Morphemes) (index : Nat) (entry : Entry) : Morphemes :=
  { ml with last_index := index
            morpheme_list := ml.morpheme_list.set index entry }

/-- In-place update of one slot, as done through get_mut by the suffix rules
of suffix.rs; only the slot at the given index changes. -/
def Morphemes.setEntry (ml : Morphemes) (index : Nat) (entry : Entry) : Morphemes :=
  { ml with morpheme_list := ml.morpheme_list.set index entry }

/-- Morphemes::type_of_ending from morpheme_list.rs. -/
def Morphemes.type_of_ending (ml : Morphemes) : POS :=
  ml.ending.pos

/-- The word stored in one slot (empty when the slot does not exist). -/
def Morphemes.wordAt (ml : Morphemes) (index : Nat) : List Char :=
  match ml.morpheme_list.get? index with
  | some e => e.word
  | none => []

/-- Morphemes::count_separators from morpheme_list.rs: how many slots in
0..=last_index carry the Separator flag. -/
def Morphemes.count_separators (ml : Morphemes) : Nat :=
  ((List.range (ml.last_index + 1)).filter
    (fun index =>
      match ml.morpheme_list.get? index with
      | some e => e.flag = Flag.Separator
      | none => false)).length

/-- Morphemes::display_form from morpheme_list.rs: the morphemes of slots
0..=last_index joined by periods, followed by a period and the ending. -/
def Morphemes.display_form (ml : Morphemes) : List Char :=
  let s0 : List Char :=
    match ml.morpheme_list.get? 0 with
    | some m => m.word
    | none => []
  let s := (List.range' 1 ml.last_index).foldl
    (fun acc i =>
      match ml.morpheme_list.get? i with
      | some m => acc ++ '.' :: m.word
      | none => acc) s0
  s ++ '.' :: ml.ending.ending

/-- Total character count, periods ignored, of the words of slots
index..=last_index.  Used to state the segmentation invariant. -/
def Morphemes.wordsLenFrom (ml : Morphemes) (index : Nat) : Nat :=
  ((List.range' index (ml.last_index + 1 - index)).map
    (fun j => nonDotLen (ml.wordAt j))).sum

/-- check_acx from suffix.rs. -/
def check_acx (index : Nat) (ml : Morphemes) : Bool × Morphemes :=
  if index = 0 then
    match ml.get index with
    | some current_entry =>
      (true, ml.setEntry index { current_entry with part_of_speech := POS.Adjective })
    | none => (false, ml)
  else
    match ml.get (index - 1) with
    | none => (false, ml)
    | some previous_entry =>
      let pos := previous_entry.part_of_speech
      let meaning := previous_entry.meaning
      let transitivity := previous_entry.transitivity
      match ml.get index with
      | none => (false, ml)
      | some current_entry =>
        if pos.rank ≤ POS.Adjective.rank ∨ pos = POS.Participle then
          (true, ml.setEntry index
            { current_entry with
                part_of_speech := pos
                meaning := meaning
                transitivity := transitivity })
        else (false, ml)

/-- check_ad from suffix.rs. -/
def check_ad (index : Nat) (ml : Morphemes) : Bool × Morphemes :=
  if index = 0 then (false, ml)
  else
    match ml.get (index - 1) with
    | none => (false, ml)
    | some previous_entry =>
      let pos := previous_entry.part_of_speech
      let transitivity := previous_entry.transitivity
      match ml.get index with
      | none => (false, ml)
      | some current_entry =>
        if pos.rank ≤ POS.Verb.rank then
          (true, ml.setEntry index
            { current_entry with
                part_of_speech := POS.Verb
                transitivity := transitivity })
        else (false, ml)

/-- check_ajx from suffix.rs. -/
def check_ajx (index : Nat) (ml : Morphemes) : Bool :=
  if index = 0 then true
  else
    match ml.get (index - 1) with
    | none => false
    | some previous_entry =>
      let pos := previous_entry.part_of_speech
      if pos.rank ≤ POS.Adjective.rank then true
      else if pos = POS.Preposition then true
      else if pos = POS.Participle then true
      else is_animal previous_entry.meaning

/-- check_an from suffix.rs. -/
def check_an (index : Nat) (ml : Morphemes) : Bool :=
  if index = 0 then true
  else
    match ml.get (index - 1) with
    | none => false
    | some previous_entry =>
      if previous_entry.part_of_speech.rank ≤ POS.SubstantiveVerb.rank then
        ¬ is_person previous_entry.meaning
      else false

/-- check_ar from suffix.rs. -/
def check_ar (index : Nat) (ml : Morphemes) : Bool :=
  if index = 0 then true
  else
    match ml.get (index - 1) with
    | none => false
    | some previous_entry =>
      let pos := previous_entry.part_of_speech
      pos.rank ≤ POS.SubstantiveVerb.rank ∨ pos = POS.Participle

/-- check_ebl from suffix.rs. -/
def check_ebl (index : Nat) (ml : Morphemes) : Bool :=
  if index = 0 then true
  else
    match ml.get (index - 1) with
    | none => false
    | some previous_entry =>
      let pos := previous_entry.part_of_speech
      (pos = POS.Verb ∨ pos = POS.SubstantiveVerb) ∧
        previous_entry.transitivity = Transitivity.Transitive

/-- check_ec from suffix.rs. -/
def check_ec (index : Nat) (ml : Morphemes) : Bool × Morphemes :=
  if index = 0 then (false, ml)
  else
    match ml.get (index - 1) with
    | none => (false, ml)
    | some previous_entry =>
      let pos := previous_entry.part_of_speech
      match ml.get index with
      | none => (false, ml)
      | some current_entry =>
        if pos.rank ≤ POS.SubstantiveVerb.rank ∨ pos = POS.Adjective ∨
           pos = POS.Number ∨ pos = POS.Participle then
          (true, ml.setEntry index
            { current_entry with part_of_speech := POS.Substantive })
        else (false, ml)

/-- check_eg_et from suffix.rs. -/
def check_eg_et (index : Nat) (ml : Morphemes) : Bool × Morphemes :=
  if index = 0 then (false, ml)
  else
    match ml.get (index - 1) with
    | none => (false, ml)
    | some previous_entry =>
      let pos := previous_entry.part_of_speech
      let meaning := previous_entry.meaning
      let transitivity := previous_entry.transitivity
      match ml.get index with
      | none => (false, ml)
      | some current_entry =>
        if pos.rank ≤ POS.Adjective.rank then
          (true, ml.setEntry index
            { current_entry with
                part_of_speech := pos
                meaning := meaning
                transitivity := transitivity })
        else (false, ml)

/-- check_ej from suffix.rs. -/
def check_ej (index : Nat) (ml : Morphemes) : Bool :=
  if index = 0 then false
  else
    match ml.get (index - 1) with
    | none => false
    | some previous_entry =>
      if previous_entry.part_of_speech.rank ≤ POS.Adjective.rank then
        previous_entry.meaning ≠ Meaning.Loko
      else false

/-- check_em from suffix.rs. -/
def check_em (index : Nat) (ml : Morphemes) : Bool :=
  if index = 0 then false
  else
    match ml.get (index - 1) with
    | none => false
    | some previous_entry =>
      previous_entry.part_of_speech.rank ≤ POS.Adjective.rank

/-- check_end_ind from suffix.rs. -/
def check_end_ind (index : Nat) (ml : Morphemes) : Bool :=
  if index = 0 then false
  else
    match ml.get (index - 1) with
    | none => false
    | some previous_entry =>
      previous_entry.transitivity = Transitivity.Transitive

/-- check_er from suffix.rs. -/
def check_er (index : Nat) (ml : Morphemes) : Bool :=
  if index = 0 then false
  else
    match ml.get (index - 1) with
    | none => false
    | some previous_entry =>
      if previous_entry.word = str "sup" then false
      else previous_entry.part_of_speech.rank ≤ POS.SubstantiveVerb.rank

/-- check_ik_ing_ism from suffix.rs. -/
def check_ik_ing_ism (index : Nat) (ml : Morphemes) : Bool :=
  if index = 0 then false
  else
    match ml.get (index - 1) with
    | none => false
    | some previous_entry =>
      previous_entry.part_of_speech.rank ≤ POS.SubstantiveVerb.rank

/-- check_estr from suffix.rs. -/
def check_estr (index : Nat) (ml : Morphemes) : Bool × Morphemes :=
  if index = 0 then
    match ml.get index with
    | some current_entry =>
      (true, ml.setEntry index
        { current_entry with
            part_of_speech := POS.Substantive
            meaning := Meaning.Persono })
    | none => (false, ml)
  else
    match ml.get (index - 1) with
    | none => (false, ml)
    | some previous_entry =>
      let pos := previous_entry.part_of_speech
      match ml.get index with
      | none => (false, ml)
      | some current_entry =>
        if pos.rank ≤ POS.SubstantiveVerb.rank then
          (true, ml.setEntry index
            { current_entry with
                part_of_speech := POS.Substantive
                meaning := Meaning.Persono })
        else (false, ml)

/-- check_id from suffix.rs. -/
def check_id (index : Nat) (ml : Morphemes) : Bool :=
  if index = 0 then true
  else
    match ml.get (index - 1) with
    | none => false
    | some previous_entry =>
      previous_entry.meaning = Meaning.Etno ∨ is_animal previous_entry.meaning

/-- check_ig_igx from suffix.rs. -/
def check_ig_igx (index : Nat) (ml : Morphemes) : Bool :=
  if index = 0 then false
  else
    match ml.get (index - 1) with
    | none => false
    | some previous_entry =>
      let pos := previous_entry.part_of_speech
      pos.rank ≤ POS.Adverb.rank ∨ pos = POS.Preposition ∨ pos = POS.Prefikso

/-- check_il from suffix.rs. -/
def check_il (index : Nat) (ml : Morphemes) : Bool :=
  if index = 0 then true
  else
    match ml.get (index - 1) with
    | none => false
    | some previous_entry =>
      let pos := previous_entry.part_of_speech
      (pos = POS.Verb ∨ pos = POS.SubstantiveVerb) ∧
        previous_entry.meaning ≠ Meaning.Ilo

/-- check_in from suffix.rs. -/
def check_in (index : Nat) (ml : Morphemes) : Bool :=
  if index = 0 then true
  else
    match ml.get (index - 1) with
    | none => false
    | some previous_entry =>
      is_person previous_entry.meaning ∨ is_animal previous_entry.meaning

/-- check_ist from suffix.rs. -/
def check_ist (index : Nat) (ml : Morphemes) : Bool :=
  if index = 0 then false
  else
    match ml.get (index - 1) with
    | none => false
    | some previous_entry =>
      previous_entry.part_of_speech.rank ≤ POS.Verb.rank ∧
        ¬ is_person previous_entry.meaning

/-- check_obl_on_op from suffix.rs. -/
def check_obl_on_op (index : Nat) (ml : Morphemes) : Bool :=
  if index = 0 then false
  else
    match ml.get (index - 1) with
    | none => false
    | some previous_entry =>
      previous_entry.part_of_speech = POS.Number

/-- check_uj from suffix.rs. -/
def check_uj (index : Nat) (ml : Morphemes) : Bool :=
  if index = 0 then false
  else
    match ml.get (index - 1) with
    | none => false
    | some previous_entry =>
      previous_entry.part_of_speech.rank ≤ POS.SubstantiveVerb.rank ∧
        previous_entry.meaning ≠ Meaning.Arbo

/-- check_ul from suffix.rs. -/
def check_ul (index : Nat) (ml : Morphemes) : Bool :=
  if index = 0 then true
  else
    match ml.get (index - 1) with
    | none => false
    | some previous_entry =>
      let pos := previous_entry.part_of_speech
      let meaning := previous_entry.meaning
      if pos = POS.Participle then true
      else if pos.rank ≤ POS.Adjective.rank ∧ ¬ is_person meaning then true
      else pos = POS.Preposition

/-- check_suffix from suffix.rs: dispatch on the literal text of the suffix.
The rules that do not rewrite the slot return it unchanged. -/
def check_suffix (suffix : List Char) (index : Nat) (ml : Morphemes) :
    Bool × Morphemes :=
  if suffix = str "aĉ" then check_acx index ml
  else if suffix = str "ad" then check_ad index ml
  else if suffix = str "aĵ" then (check_ajx index ml, ml)
  else if suffix = str "an" then (check_an index ml, ml)
  else if suffix = str "ar" then (check_ar index ml, ml)
  else if suffix = str "ebl" then (check_ebl index ml, ml)
  else if suffix = str "ec" then check_ec index ml
  else if suffix = str "eg" then check_eg_et index ml
  else if suffix = str "et" then check_eg_et index ml
  else if suffix = str "ej" then (check_ej index ml, ml)
  else if suffix = str "em" then (check_em index ml, ml)
  else if suffix = str "end" then (check_end_ind index ml, ml)
  else if suffix = str "ind" then (check_end_ind index ml, ml)
  else if suffix = str "er" then (check_er index ml, ml)
  else if suffix = str "ik" then (check_ik_ing_ism index ml, ml)
  else if suffix = str "ing" then (check_ik_ing_ism index ml, ml)
  else if suffix = str "ism" then (check_ik_ing_ism index ml, ml)
  else if suffix = str "estr" then check_estr index ml
  else if suffix = str "id" then (check_id index ml, ml)
  else if suffix = str "ig" then (check_ig_igx index ml, ml)
  else if suffix = str "iĝ" then (check_ig_igx index ml, ml)
  else if suffix = str "il" then (check_il index ml, ml)
  else if suffix = str "in" then (check_in index ml, ml)
  else if suffix = str "ist" then (check_ist index ml, ml)
  else if suffix = str "obl" then (check_obl_on_op index ml, ml)
  else if suffix = str "on" then (check_obl_on_op index ml, ml)
  else if suffix = str "op" then (check_obl_on_op index ml, ml)
  else if suffix = str "uj" then (check_uj index ml, ml)
  else if suffix = str "ul" then (check_ul index ml, ml)
  else (false, ml)

/-- The while loops of scan_morphemes.rs: does some slot with index in
lo..=hi satisfy the predicate?  A missing slot is skipped, as the if-let
in the loops does. -/
def any_slot (ml : Morphemes) (lo hi : Nat) (p : Entry → Bool) : Bool :=
  (List.range' lo (hi + 1 - lo)).any
    (fun n =>
      match ml.morpheme_list.get? n with
      | some e => p e
      | none => false)

/-- check_bo from scan_morphemes.rs. -/
def check_bo (index : Nat) (ml : Morphemes) : Bool :=
  if index ≠ 0 then false
  else
    let difference := ml.last_index - index
    if 0 < difference then
      match ml.get (index + 1) with
      | some next_entry => next_entry.meaning = Meaning.Parenco
      | none => false
    else false

/-- check_cis from scan_morphemes.rs. -/
def check_cis (index : Nat) (ml : Morphemes) : Bool :=
  if index ≠ 0 then false
  else
    let difference := ml.last_index - index
    if 0 < difference then
      match ml.get (index + 1) with
      | some next_entry =>
        next_entry.meaning = Meaning.Rivero ∨
        next_entry.meaning = Meaning.Monto ∨
        next_entry.meaning = Meaning.Montaro
      | none => false
    else false

/-- check_cxi from scan_morphemes.rs. -/
def check_cxi (index : Nat) (ml : Morphemes) : Bool :=
  if index = 0 then
    ml.type_of_ending = POS.Adjective ∨ ml.type_of_ending = POS.Adverb
  else false

/-- check_eks from scan_morphemes.rs. -/
def check_eks (index : Nat) (ml : Morphemes) : Bool :=
  if index ≠ 0 then false
  else any_slot ml (index + 1) ml.last_index (fun e => is_person e.meaning)

/-- check_ge from scan_morphemes.rs. -/
def check_ge (index : Nat) (ml : Morphemes) : Bool :=
  if index ≠ 0 then false
  else any_slot ml (index + 1) ml.last_index
    (fun e => is_person e.meaning ∨ is_animal e.meaning)

/-- check_prepositional_prefix from scan_morphemes.rs. -/
def check_prepositional_prefikso (index : Nat) (ml : Morphemes) : Bool :=
  if 0 < ml.last_index ∧
     (ml.type_of_ending = POS.Adjective ∨ ml.type_of_ending = POS.Adverb) then
    true
  else
    any_slot ml (index + 1) ml.last_index
      (fun e => e.part_of_speech = POS.Verb ∨ e.part_of_speech = POS.SubstantiveVerb)

/-- check_adverbial_prefix from scan_morphemes.rs. -/
def check_adverbial_prefikso (index : Nat) (ml : Morphemes) : Bool :=
  if 0 < ml.last_index ∧ ml.type_of_ending = POS.Verb then true
  else
    any_slot ml (index + 1) ml.last_index
      (fun e => e.part_of_speech = POS.Verb ∨ e.part_of_speech = POS.SubstantiveVerb)

/-- check_kun from scan_morphemes.rs. -/
def check_kun (index : Nat) (ml : Morphemes) : Bool :=
  if index ≠ 0 then false
  else if check_prepositional_prefikso index ml then true
  else any_slot ml (index + 1) ml.last_index
    (fun e => e.part_of_speech = POS.Substantive)

/-- check_mal from scan_morphemes.rs. -/
def check_mal (index : Nat) (ml : Morphemes) : Bool :=
  if index ≠ 0 then false
  else if 0 < ml.last_index ∧
          (ml.type_of_ending = POS.Verb ∨ ml.type_of_ending = POS.Adjective ∨
           ml.type_of_ending = POS.Adverb) then
    true
  else any_slot ml (index + 1) ml.last_index
    (fun e => e.part_of_speech = POS.Verb ∨
              e.part_of_speech = POS.SubstantiveVerb ∨
              e.part_of_speech = POS.Adjective)

/-- check_ne from scan_morphemes.rs. -/
def check_ne (index : Nat) (ml : Morphemes) : Bool :=
  if index ≠ 0 then false
  else if 0 < ml.last_index ∧
          (ml.type_of_ending = POS.Adjective ∨ ml.type_of_ending = POS.Adverb) then
    true
  else any_slot ml (index + 1) ml.last_index
    (fun e => e.part_of_speech = POS.Adjective ∨
              e.part_of_speech = POS.Participle ∨
              e.word = str "ad" ∨ e.word = str "ec")

/-- check_po from scan_morphemes.rs. -/
def check_po (index : Nat) (ml : Morphemes) : Bool :=
  if index ≠ 0 then false
  else 0 < ml.last_index ∧ ml.type_of_ending = POS.Adverb

/-- check_pra from scan_morphemes.rs. -/
def check_pra (index : Nat) (ml : Morphemes) : Bool :=
  if index ≠ 0 then false
  else
    let diff := ml.last_index - index
    let next_sub : Bool :=
      match ml.get (index + 1) with
      | some next_entry =>
        next_entry.part_of_speech = POS.Substantive ∨
        next_entry.part_of_speech = POS.SubstantiveVerb
      | none => false
    let next2_participle : Bool :=
      match ml.get (index + 2) with
      | some next_entry => next_entry.part_of_speech = POS.Participle
      | none => false
    (decide (0 < diff) && next_sub) || (decide (1 < diff) && next2_participle)

/-- check_pseuxdo from scan_morphemes.rs. -/
def check_pseuxdo (index : Nat) (ml : Morphemes) : Bool :=
  if index ≠ 0 then false
  else
    let diff := ml.last_index - index
    if 0 < diff then
      match ml.get (index + 1) with
      | some next_entry =>
        next_entry.part_of_speech = POS.Substantive ∨
        next_entry.part_of_speech = POS.SubstantiveVerb ∨
        next_entry.part_of_speech = POS.Adjective
      | none => false
    else false

/-- check_sen from scan_morphemes.rs. -/
def check_sen (index : Nat) (ml : Morphemes) : Bool :=
  if index ≠ 0 then false
  else if check_prepositional_prefikso index ml then true
  else
    match ml.get ml.last_index with
    | some last_entry =>
      last_entry.word = str "ul" ∨ last_entry.word = str "aĵ" ∨
      last_entry.word = str "ej"
    | none => false

/-- check_sin from scan_morphemes.rs. -/
def check_sin (index : Nat) (ml : Morphemes) : Bool :=
  if index ≠ 0 then false
  else any_slot ml (index + 1) ml.last_index
    (fun e => e.transitivity = Transitivity.Transitive)

/-- check_sub_super_sur from scan_morphemes.rs. -/
def check_sub_super_sur (index : Nat) (ml : Morphemes) : Bool :=
  if check_prepositional_prefikso index ml then true
  else
    0 < ml.last_index ∧
    (ml.type_of_ending = POS.Substantive ∨ ml.type_of_ending = POS.SubstantiveVerb)

/-- check_first from scan_morphemes.rs. -/
def check_first (index : Nat) (_ml : Morphemes) : Bool :=
  index = 0

/-- check_prefix from scan_morphemes.rs: the technical-prefix rule followed
by the dispatch on the literal prefix text. -/
def check_prefikso (p : List Char) (index : Nat) (ml : Morphemes) : Bool :=
  let tech : Bool :=
    match ml.get index with
    | some entry => entry.part_of_speech = POS.TechPrefikso
    | none => false
  if tech then index = 0
  else if p = str "al" then check_prepositional_prefikso index ml
  else if p = str "anstataŭ" then check_first index ml
  else if p = str "antaŭ" then check_first index ml
  else if p = str "apud" then check_prepositional_prefikso index ml
  else if p = str "bo" then check_bo index ml
  else if p = str "cis" then check_cis index ml
  else if p = str "ĉe" then check_prepositional_prefikso index ml
  else if p = str "ĉi" then check_cxi index ml
  else if p = str "ĉirkaŭ" then check_first index ml
  else if p = str "de" then check_prepositional_prefikso index ml
  else if p = str "dis" then check_adverbial_prefikso index ml
  else if p = str "dum" then check_prepositional_prefikso index ml
  else if p = str "ek" then check_adverbial_prefikso index ml
  else if p = str "eks" then check_eks index ml
  else if p = str "ekster" then check_first index ml
  else if p = str "el" then check_prepositional_prefikso index ml
  else if p = str "en" then check_prepositional_prefikso index ml
  else if p = str "for" then check_adverbial_prefikso index ml
  else if p = str "ge" then check_ge index ml
  else if p = str "ĝis" then check_prepositional_prefikso index ml
  else if p = str "inter" then check_first index ml
  else if p = str "kontraŭ" then check_first index ml
  else if p = str "krom" then check_first index ml
  else if p = str "kun" then check_kun index ml
  else if p = str "laŭ" then check_prepositional_prefikso index ml
  else if p = str "mal" then check_mal index ml
  else if p = str "mis" then check_adverbial_prefikso index ml
  else if p = str "ne" then check_ne index ml
  else if p = str "per" then check_prepositional_prefikso index ml
  else if p = str "pli" then check_adverbial_prefikso index ml
  else if p = str "po" then check_po index ml
  else if p = str "por" then check_prepositional_prefikso index ml
  else if p = str "post" then check_prepositional_prefikso index ml
  else if p = str "pra" then check_pra index ml
  else if p = str "preter" then check_prepositional_prefikso index ml
  else if p = str "pri" then check_prepositional_prefikso index ml
  else if p = str "pro" then check_prepositional_prefikso index ml
  else if p = str "pseŭdo" then check_pseuxdo index ml
  else if p = str "re" then check_adverbial_prefikso index ml
  else if p = str "retro" then check_first index ml
  else if p = str "sen" then check_sen index ml
  else if p = str "sin" then check_sin index ml
  else if p = str "sub" then check_sub_super_sur index ml
  else if p = str "super" then check_sub_super_sur index ml
  else if p = str "sur" then check_sub_super_sur index ml
  else if p = str "tra" then check_prepositional_prefikso index ml
  else if p = str "trans" then check_prepositional_prefikso index ml
  else false

/-- check_limited_synthesis from scan_morphemes.rs. -/
def check_limited_synthesis (_morpheme : List Char) (index : Nat)
    (ml : Morphemes) : Bool :=
  let last := ml.last_index
  match ml.get index with
  | none => false
  | some entry =>
    let pos := entry.part_of_speech
    let meaning := entry.meaning
    if pos = POS.Verb ∨ pos = POS.SubstantiveVerb then
      (if 0 < index then
         match ml.get (index - 1) with
         | some prev => prev.synthesis = Synthesis.Prefikso
         | none => true
       else true) &&
      (if index < last then
         match ml.get (index + 1) with
         | some next =>
           next.synthesis = Synthesis.Suffix ∨ next.synthesis = Synthesis.Participle
         | none => true
       else true)
    else if meaning = Meaning.Parenco then
      (if 0 < index then
         match ml.get (index - 1) with
         | some prev =>
           prev.word = str "bo" ∨ prev.word = str "ge" ∨ prev.word = str "pra"
         | none => true
       else true) &&
      (if index < last then
         match ml.get (index + 1) with
         | some next => next.word = str "in"
         | none => true
       else true)
    else if is_animal meaning then
      (if 0 < index then
         match ml.get (index - 1) with
         | some prev => prev.word = str "vir"
         | none => true
       else true) &&
      (if index < last then
         match ml.get (index + 1) with
         | some next =>
           next.word = str "in" ∨ next.word = str "id" ∨
           next.word = str "aĵ" ∨ next.word = str "ov"
         | none => true
       else true)
    else if meaning = Meaning.Etno then
      (if 0 < index then
         match ml.get (index - 1) with
         | some prev => prev.word = str "ge"
         | none => true
       else true) &&
      (if index < last then
         match ml.get (index + 1) with
         | some next =>
           next.word = str "in" ∨ next.word = str "id" ∨
           next.word = str "land" ∨ next.word = str "stil"
         | none => true
       else true)
    else true

/-- valid_separator from scan_morphemes.rs. -/
def valid_separator (pos : POS) (index : Nat) (ml : Morphemes) : Bool :=
  if index = 0 then false
  else
    match ml.get (index - 1) with
    | none => false
    | some previous =>
      let previous_pos := previous.part_of_speech
      let type_of_ending := ml.type_of_ending
      if pos = POS.Substantive ∧ POS.Adjective.rank < previous_pos.rank then false
      else if pos = POS.Adjective ∨ pos = POS.Adverb then
        if type_of_ending ≠ POS.Adjective ∧ type_of_ending ≠ POS.Adverb then false
        else if POS.Adverb.rank < previous_pos.rank then false
        else true
      else true

/-- check_participle from scan_morphemes.rs.  As the Rust code does, the
passive-participle test compares String::len, the UTF-8 byte length of the
participle text, with 2. -/
def check_participle (index : Nat) (ml : Morphemes) : Bool :=
  if index = 0 then false
  else
    match ml.get index with
    | none => false
    | some entry =>
      let participle_string := entry.word
      match ml.get (index - 1) with
      | none => false
      | some previous_entry =>
        let previous_string := previous_entry.word
        let previous_pos := previous_entry.part_of_speech
        let previous_trans := previous_entry.transitivity
        let last := ml.last_index
        let next? : Option (List Char) :=
          if index < last then
            match ml.get (index + 1) with
            | some next_entry => some next_entry.word
            | none => none
          else some []
        match next? with
        | none => false
        | some next_string =>
          if previous_pos = POS.Verb ∨ previous_pos = POS.SubstantiveVerb then
            if utf8Len participle_string = 2 ∧
               previous_trans ≠ Transitivity.Transitive then false
            else if index < last then
              next_string = str "aĵ" ∨ next_string = str "ul" ∨
              next_string = str "in" ∨ next_string = str "ec" ∨
              next_string = str "ar"
            else true
          else
            previous_string = str "antaŭ" ∨ previous_string = str "anstataŭ" ∨
            previous_string = str "ĉirkaŭ" ∨ previous_string = str "kontraŭ" ∨
            previous_string = str "super"

/-- One iteration of the scan loop of scan_morphemes from scan_morphemes.rs:
the checks applied to the slot at the given index. -/
def scan_step (ml : Morphemes) (index : Nat) : Bool :=
  match ml.get index with
  | none => false
  | some entry =>
    let syn := entry.synthesis
    let pos := entry.part_of_speech
    let morpheme := entry.word
    (if entry.flag = Flag.Separator then valid_separator pos index ml else true) &&
    (if syn = Synthesis.Prefikso then
       if index = ml.last_index then false
       else check_prefikso morpheme index ml
     else if syn = Synthesis.Participle then check_participle index ml
     else if syn = Synthesis.Limited then check_limited_synthesis morpheme index ml
     else true)

/-- scan_morphemes from scan_morphemes.rs: reject more than one separator,
then check every slot 0..=last_index. -/
def scan_morphemes (ml : Morphemes) : Bool :=
  if 1 < ml.count_separators then false
  else (List.range (ml.last_index + 1)).all (fun index => scan_step ml index)

/-- The candidate morpheme sizes tried by the division loop of find_morpheme
in check_word.rs: the Rust iterator (min_length .. max_length).rev() with
min_length = 2 and max_length = length_of_word - 1 (a half-open range). -/
def candidateSizes (length_of_word : Nat) : List Nat :=
  (List.range' 2 (length_of_word - 1 - 2)).reverse

/-- check_synthesis from check_word.rs with last_morpheme = true: run the
suffix check when the just-placed morpheme is a suffix, then scan the whole
completed sequence. -/
def check_synthesis_last (index : Nat) (ml : Morphemes) : Bool × Morphemes :=
  match ml.get index with
  | none => (false, ml)
  | some entry =>
    if entry.synthesis = Synthesis.Suffix then
      let r := check_suffix entry.word index ml
      if r.1 then (scan_morphemes r.2, r.2) else (false, r.2)
    else (scan_morphemes ml, ml)

/-- Lines 114-124 of find_morpheme in check_word.rs: when the index is
positive, look the whole remaining stem up in the dictionary, and when the
entry found may combine, place it and validate the completed word. -/
def find_whole_word (dict : Dict) (rest_of_word : List Char) (index : Nat)
    (ml : Morphemes) : Bool × Morphemes :=
  if 0 < index then
    match dict rest_of_word with
    | some entry =>
      if entry.synthesis ≠ Synthesis.No then
        check_synthesis_last index (ml.put index entry)
      else (false, ml)
    | none => (false, ml)
  else (false, ml)

mutual

/-- find_morpheme from check_word.rs.  The Boolean of the result is the
return value of the Rust function; the Morphemes component is the state of
the shared mutable buffer when the function returns (mutations made by failed
branches persist, exactly as in the Rust code, which backtracks by
overwriting). -/
def find_morpheme (dict : Dict) (rest_of_word : List Char) (index : Nat)
    (ml : Morphemes) : Bool × Morphemes :=
  if 9 ≤ index then (false, ml)
  else
    let whole : Bool × Morphemes := find_whole_word dict rest_of_word index ml
    if whole.1 then (true, whole.2)
    else
      let looped := try_sizes dict rest_of_word index
        (candidateSizes rest_of_word.length) whole.2
      if looped.1 then (true, looped.2)
      else if _h : index = 0 ∨ rest_of_word.length < 3 then (false, looped.2)
      else
        match Entry.new_separator (rest_of_word.take 1) with
        | some entry =>
          check_synthesis_cont dict (rest_of_word.drop 1) index
            (looped.2.put index entry)
        | none => (false, looped.2)
  termination_by (2 * rest_of_word.length + 3, 0)

/-- The division loop of find_morpheme in check_word.rs, over the list of
candidate sizes still to try.  The bounds in the dependent condition are an
invariant of the actual size lists (candidateSizes yields only sizes s with
2 <= s and s + 2 <= length); they are made explicit here so that the
recursion is well founded, and the skip branch is never taken on them. -/
def try_sizes (dict : Dict) (rest_of_word : List Char) (index : Nat)
    (sizes : List Nat) (ml : Morphemes) : Bool × Morphemes :=
  match sizes with
  | [] => (false, ml)
  | size :: rest_sizes =>
    if _h : 2 ≤ size ∧ size + 2 ≤ rest_of_word.length then
      match dict (rest_of_word.take size) with
      | some entry =>
        if entry.synthesis ≠ Synthesis.No then
          let attempt := check_synthesis_cont dict (rest_of_word.drop size) index
            (ml.put index entry)
          if attempt.1 then (true, attempt.2)
          else try_sizes dict rest_of_word index rest_sizes attempt.2
        else try_sizes dict rest_of_word index rest_sizes ml
      | none => try_sizes dict rest_of_word index rest_sizes ml
    else try_sizes dict rest_of_word index rest_sizes ml
  termination_by (2 * rest_of_word.length + 2, sizes.length)

/-- check_synthesis from check_word.rs with last_morpheme = false: run the
suffix check when the just-placed morpheme is a suffix, then divide the rest
of the word at the next index. -/
def check_synthesis_cont (dict : Dict) (rest_of_word : List Char) (index : Nat)
    (ml : Morphemes) : Bool × Morphemes :=
  match ml.get index with
  | none => (false, ml)
  | some entry =>
    if entry.synthesis = Synthesis.Suffix then
      let r := check_suffix entry.word index ml
      if r.1 then find_morpheme dict rest_of_word (index + 1) r.2
      else (false, r.2)
    else find_morpheme dict rest_of_word (index + 1) ml
  termination_by (2 * rest_of_word.length + 4, 0)

end

/-- The result of an analysis, from check_word.rs. -/
structure AnalysisResult where
  word : List Char
  valid : Bool
deriving DecidableEq

/-- AnalysisResult::new from check_word.rs: restore the original
capitalization.  none models the panic of restore_capitals when the analyzed
string has more non-period characters than the original has characters. -/
def AnalysisResult.new (original word : List Char) (valid : Bool) :
    Option AnalysisResult :=
  (restore_capitals original word).map (fun w2 => { word := w2, valid := valid })

/-- The literal-exception table of check_word (check_word.rs lines 218-233):
the rendered form of an exceptional short word, or the empty string when the
word is not in the table. -/
def exception_form (word : List Char) : List Char :=
  if word = str "ĝin" then str "ĝi.n"
  else if word = str "lin" then str "li.n"
  else if word = str "min" then str "mi.n"
  else if word = str "sin" then str "si.n"
  else if word = str "vin" then str "vi.n"
  else if word = str "lian" then str "li.an"
  else if word = str "cian" then str "ci.an"
  else []

/-- The tail of check_word from check_word.rs: the word has a grammatical
ending but its stem is not a directly inflectable root, so the stem is
divided into morphemes by find_morpheme. -/
def check_word_compound (original_word word word_without_ending : List Char)
    (ending : Ending) (dict : Dict) : Option AnalysisResult :=
  let morpheme_list := Morphemes.new ending
  let r := find_morpheme dict word_without_ending 0 morpheme_list
  if r.1 then AnalysisResult.new original_word r.2.display_form true
  else AnalysisResult.new original_word word false

/-- check_word from check_word.rs, lines 242-277: remove a grammatical
ending, look the stem up directly, otherwise analyze the stem as a compound. -/
def check_word_with_ending (original_word word : List Char) (dict : Dict) :
    Option AnalysisResult :=
  match Ending.new word with
  | some ending =>
    let length := word.length - ending.length
    let word_without_ending := word.take length
    (match dict word_without_ending with
     | some entry =>
       if entry.with_ending = WithEnding.Yes then
         AnalysisResult.new original_word (entry.word ++ '.' :: ending.ending) true
       else check_word_compound original_word word word_without_ending ending dict
     | none => check_word_compound original_word word word_without_ending ending dict)
  | none => AnalysisResult.new original_word word false

/-- check_word from check_word.rs, lines 235-240: words valid without a
grammatical ending, then the ending analysis. -/
def check_word_after_exceptions (original_word word : List Char) (dict : Dict) :
    Option AnalysisResult :=
  match dict word with
  | some entry =>
    if entry.without_ending = WithoutEnding.Yes then
      AnalysisResult.new original_word entry.word true
    else check_word_with_ending original_word word dict
  | none => check_word_with_ending original_word word dict

/-- check_word from check_word.rs, lines 207-277: hyphens removed, word
lowercased, then the exception table, then the dictionary phases. -/
def check_word_main (original_word0 : List Char) (dict : Dict) :
    Option AnalysisResult :=
  let original_word := remove_hyphens original_word0
  let word := rustLowerStr original_word
  let length_of_word := word.length
  if length_of_word < 5 then
    let w := exception_form word
    if w ≠ [] then AnalysisResult.new original_word w true
    else check_word_after_exceptions original_word word dict
  else check_word_after_exceptions original_word word dict

/-- check_word from check_word.rs.  The single-character and abbreviation
phases act on the raw token; everything else is check_word_main. -/
def check_word (original_word : List Char) (dict : Dict) :
    Option AnalysisResult :=
  if original_word.length = 1 then
    match original_word with
    | [c] =>
      if is_word_char c then AnalysisResult.new original_word original_word true
      else AnalysisResult.new original_word original_word false
    | _ => AnalysisResult.new original_word original_word false
  else if 2 < original_word.length then
    match original_word.get? 1 with
    | some second_char =>
      if is_hyphen second_char then
        let word := rustLowerStr original_word
        match dict word with
        | some _ => AnalysisResult.new original_word word true
        | none => AnalysisResult.new original_word word false
      else check_word_main original_word dict
    | none => check_word_main original_word dict
  else check_word_main original_word dict

/-- Well-formedness of a dictionary, as established by make_dictionary in
vortaro.rs: the key of an entry is the entry word with periods removed and
lowercased (the key of a compound entry such as muzik.il is muzikil), and
lowercasing the entry word does not change its character count. -/
def WFdict (dict : Dict) : Prop :=
  ∀ k e, dict k = some e →
    rustLowerStr (removeDots e.word) = k ∧ nonDotLen e.word = k.length

/-- The empty dictionary. -/
def emptyDict : Dict := fun _ => none

/-- A root entry for the two-letter morpheme ab, used in concrete checks. -/
def entryAB : Entry :=
  { Entry.empty with
      word := str "ab"
      length := 2
      synthesis := Synthesis.UnLimited
      with_ending := WithEnding.Yes }

/-- A root entry for the two-letter morpheme cd, used in concrete checks. -/
def entryCD : Entry :=
  { Entry.empty with
      word := str "cd"
      length := 2
      synthesis := Synthesis.UnLimited }

/-- A concrete two-entry dictionary with roots ab and cd. -/
def dictABCD : Dict :=
  fun k =>
    if k = str "ab" then some entryAB
    else if k = str "cd" then some entryCD
    else none

/-- A root entry for the four-letter morpheme abcd, used in concrete checks. -/
def entryABCD : Entry :=
  { Entry.empty with
      word := str "abcd"
      length := 4
      synthesis := Synthesis.UnLimited }

/-- An entry under the one-letter key e, used in concrete checks. -/
def entryE : Entry :=
  { Entry.empty with
      word := str "e"
      length := 1
      synthesis := Synthesis.UnLimited }

/-- A concrete dictionary holding the root abcd and the one-letter entry e. -/
def dictABCDE : Dict :=
  fun k =>
    if k = str "abcd" then some entryABCD
    else if k = str "e" then some entryE
    else none

/-- An intransitive verb entry, used in concrete checks. -/
def entryVerbIntrans : Entry :=
  { Entry.empty with
      word := str "kur"
      length := 3
      part_of_speech := POS.Verb
      transitivity := Transitivity.Intransitive
      synthesis := Synthesis.UnLimited }

/-- A participle entry whose text ĉa has two characters but three UTF-8
bytes, used in concrete checks. -/
def entryCxa : Entry :=
  { Entry.empty with
      word := str "ĉa"
      length := 2
      part_of_speech := POS.Participle
      synthesis := Synthesis.Participle }

/-- A morpheme sequence holding an intransitive verb followed by the
two-character participle text ĉa. -/
def mlParticiple : Morphemes :=
  { last_index := 1
    morpheme_list := [entryVerbIntrans, entryCxa] ++ List.replicate 7 Entry.empty
    ending := VERB_AS }

/-- An entry with the Participle part of speech, used in concrete checks. -/
def entryParticipleIt : Entry :=
  { Entry.empty with
      word := str "it"
      length := 2
      part_of_speech := POS.Participle
      synthesis := Synthesis.Participle }

/-- A suffix entry for aĉ, used in concrete checks. -/
def entryAcx : Entry :=
  { Entry.empty with
      word := str "aĉ"
      length := 2
      part_of_speech := POS.Suffix
      synthesis := Synthesis.Suffix }

/-- A morpheme sequence holding a Participle-category slot followed by the
pejorative suffix aĉ. -/
def mlAcx : Morphemes :=
  { last_index := 1
    morpheme_list := [entryParticipleIt, entryAcx] ++ List.replicate 7 Entry.empty
    ending := ADJ_A }

/-- C10: the grammatical-ending recognizer returns None for every word of
fewer than 3 characters, whatever its final character: the 3-character
minimum applies before any of the per-letter cases, so a two-letter word
never receives a grammatical ending. -/
theorem ending_new_short_none (w : List Char) (h : w.length < 3) :
    Ending.new w = none := by
  unfold Ending.new
  cases hr : w.reverse with
  | nil => simp [Ending.newAux]
  | cons last rest => simp [Ending.newAux, h]

/-- Witness for C10 at the two-letter word ab. -/
theorem ending_new_short_none_witness :
    (str "ab").length < 3 ∧ Ending.new (str "ab") = none :=
  ⟨by decide, ending_new_short_none (str "ab") (by decide)⟩

/-- C4: the cascade of the ending recognizer for a final letter s and a
final letter n, exactly as the code implements it. -/
theorem ending_new_s_n_cascade (w : List Char) :
    (w.reverse.head? = some 's' →
      Ending.new w =
        if w.length < 4 then none
        else if w.reverse.get? 1 = some 'a' then some VERB_AS
        else if w.reverse.get? 1 = some 'i' then some VERB_IS
        else if w.reverse.get? 1 = some 'o' then some VERB_OS
        else if w.reverse.get? 1 = some 'u' then some VERB_US
        else none) ∧
    (w.reverse.head? = some 'n' →
      Ending.new w =
        if w.length < 4 then none
        else if w.reverse.get? 1 = some 'o' then some SUB_ON
        else if w.reverse.get? 1 = some 'a' then some ADJ_AN
        else if w.reverse.get? 1 = some 'e' then some ADV_EN
        else if w.reverse.get? 1 = some 'j' then
          if w.length < 5 then none
          else if w.reverse.get? 2 = some 'o' then some SUB_OJN
          else if w.reverse.get? 2 = some 'a' then some ADJ_AJN
          else none
        else none) := by
  have hlen : w.length = w.reverse.length := (List.length_reverse w).symm
  unfold Ending.new
  cases hr : w.reverse with
  | nil => simp
  | cons last rest =>
    rw [hr] at hlen
    constructor
    · intro hs
      simp only [List.head?] at hs
      injection hs with hs
      subst hs
      cases rest with
      | nil =>
        have h1 : w.length = 1 := by simp [hlen]
        simp [Ending.newAux, h1]
      | cons c2 rest2 =>
        have h2 : 2 ≤ w.length := by
          rw [hlen]; simp only [List.length_cons]; omega
        by_cases h4 : w.length < 4
        · simp [Ending.newAux, h4, if_neg (by decide : ¬('s' = 'o'))]
        · simp only [Ending.newAux, if_neg (by omega : ¬ w.length < 3),
            if_neg (by decide : ¬('s' = 'o')), if_pos rfl, if_neg h4, h4,
            List.get?]
          by_cases ha : c2 = 'a' <;> by_cases hi : c2 = 'i' <;>
            by_cases ho : c2 = 'o' <;> by_cases hu : c2 = 'u' <;>
            simp_all
    · intro hn
      simp only [List.head?] at hn
      injection hn with hn
      subst hn
      cases rest with
      | nil =>
        have h1 : w.length = 1 := by simp [hlen]
        simp [Ending.newAux, h1]
      | cons c2 rest2 =>
        by_cases h4 : w.length < 4
        · simp [Ending.newAux, h4, if_neg (by decide : ¬('n' = 'o')),
            if_neg (by decide : ¬('n' = 's'))]
        · simp only [Ending.newAux, if_neg (by omega : ¬ w.length < 3),
            if_neg (by decide : ¬('n' = 'o')), if_neg (by decide : ¬('n' = 's')),
            if_pos rfl, if_neg h4, h4, List.get?]
          by_cases ho : c2 = 'o'
          · simp_all
          · by_cases ha : c2 = 'a'
            · simp_all
            · by_cases he : c2 = 'e'
              · simp_all
              · by_cases hj : c2 = 'j'
                · subst hj
                  simp only [ho, ha, he, if_neg, if_pos rfl, if_true]
                  by_cases h5 : w.length < 5
                  · simp [h5]
                  · cases rest2 with
                    | nil =>
                      have : w.length = 2 := by simp [hlen]
                      omega
                    | cons c3 rest3 =>
                      simp only [h5, if_neg h5, List.get?]
                      by_cases h3o : c3 = 'o' <;> by_cases h3a : c3 = 'a' <;>
                        simp_all
                · simp_all

/-- Witness for C4: the s-branch at amas and the n-branch at hundojn. -/
theorem ending_new_s_n_cascade_witness :
    Ending.new (str "amas") = some VERB_AS ∧
    Ending.new (str "hundojn") = some SUB_OJN := by
  constructor
  · have h := (ending_new_s_n_cascade (str "amas")).1 (by decide)
    rw [h]; decide
  · have h := (ending_new_s_n_cascade (str "hundojn")).2 (by decide)
    rw [h]; decide

unseal find_morpheme try_sizes check_synthesis_cont in
/-- Counterexample to C1: for a stem of 5 characters the claim predicts the
candidate prefix sizes 4, 3, 2, with stemLength - 1 = 4 among them; the
division loop of find_morpheme actually tries only 3 and 2, because the Rust
range (2 .. stemLength - 1) excludes its upper bound.  Accordingly, with a
dictionary containing the combinable 4-character root abcd (and a
continuation entry for the remaining character e), the search still fails on
the 5-character stem abcde. -/
theorem candidate_sizes_counterexample :
    candidateSizes 5 = [3, 2] ∧ 5 - 1 ∉ candidateSizes 5 ∧
    dictABCDE (str "abcd") = some entryABCD ∧
    entryABCD.synthesis ≠ Synthesis.No ∧
    (find_morpheme dictABCDE (str "abcde") 0 (Morphemes.new SUB_O)).1 = false := by
  decide

/-- Each List.range' with step 1 ascends by exactly one. -/
theorem chain_succ_range' (n : Nat) : ∀ s : Nat,
    List.Chain' (fun a b => a + 1 = b) (List.range' s n) := by
  induction n with
  | zero => intro s; simp
  | succ m ih =>
    intro s
    rw [List.range'_succ]
    cases hm : m with
    | zero => simp
    | succ m2 =>
      rw [hm] at ih
      rw [List.range'_succ]
      exact List.Chain'.cons rfl (by rw [← List.range'_succ]; exact ih (s + 1))

/-- C1 amended: at a level of the segmentation search where the whole stem
was not accepted, the candidate prefix sizes tried are stemLength - 2 down
to 2 (not stemLength - 1 down to 2): a size is tried exactly when it is at
least 2 and leaves at least two characters, the sizes descend one by one
(longest first), and stemLength - 1 is never among them; the loop returns
success at the first candidate size whose placement and recursive
continuation succeed, threading the buffer state through failed attempts. -/
theorem candidate_sizes_amended (L : Nat) :
    L - 1 ∉ candidateSizes L ∧
    (∀ s, s ∈ candidateSizes L ↔ 2 ≤ s ∧ s + 2 ≤ L) ∧
    List.Chain' (fun a b => b + 1 = a) (candidateSizes L) ∧
    (∀ (dict : Dict) (rest : List Char) (index size : Nat) (sizes : List Nat)
        (ml : Morphemes), 2 ≤ size → size + 2 ≤ rest.length →
        try_sizes dict rest index (size :: sizes) ml =
          match dict (rest.take size) with
          | some entry =>
            if entry.synthesis ≠ Synthesis.No then
              let attempt := check_synthesis_cont dict (rest.drop size) index
                (ml.put index entry)
              if attempt.1 then (true, attempt.2)
              else try_sizes dict rest index sizes attempt.2
            else try_sizes dict rest index sizes ml
          | none => try_sizes dict rest index sizes ml) := by
  have hmem : ∀ s, s ∈ candidateSizes L ↔ 2 ≤ s ∧ s + 2 ≤ L := by
    intro s
    unfold candidateSizes
    rw [List.mem_reverse, List.mem_range'_1]
    omega
  refine ⟨?_, hmem, ?_, ?_⟩
  · intro hmem1
    have := (hmem (L - 1)).1 hmem1
    omega
  · unfold candidateSizes
    rw [List.chain'_reverse]
    exact chain_succ_range' (L - 1 - 2) 2
  · intro dict rest index size sizes ml h2 hle
    rw [try_sizes]
    rw [dif_pos ⟨h2, hle⟩]

/-- Witness for C1 amended, at stem length 5 with the empty dictionary:
stem length minus one is not tried, and the loop at candidate size 3 (a
failing lookup) moves on to the next size. -/
theorem candidate_sizes_amended_witness :
    5 - 1 ∉ candidateSizes 5 ∧
    try_sizes emptyDict (str "abcde") 0 [3, 2] (Morphemes.new SUB_O) =
      try_sizes emptyDict (str "abcde") 0 [2] (Morphemes.new SUB_O) := by
  refine ⟨(candidate_sizes_amended 5).1, ?_⟩
  have h := (candidate_sizes_amended 5).2.2.2 emptyDict (str "abcde") 0 3 [2]
    (Morphemes.new SUB_O) (by decide) (by decide)
  rw [h]
  rfl

/-- C9: the token vin is handled by the literal-exception table before any
dictionary phase: for every dictionary the analysis is valid with rendered
form vi.n. -/
theorem check_word_vin (dict : Dict) :
    check_word (str "vin") dict = some { word := str "vi.n", valid := true } := rfl

/-- Counterexample to C7: the passive-participle test of check_participle
compares the UTF-8 byte length of the participle text with 2, not its
character count.  The participle text ĉa has 2 characters (3 bytes), the
preceding verb slot is Intransitive, and the claim therefore demands
rejection; the full-sequence scan accepts. -/
theorem check_participle_counterexample :
    check_participle 1 mlParticiple = true ∧
    scan_morphemes mlParticiple = true ∧
    (mlParticiple.wordAt 1).length = 2 ∧
    (mlParticiple.get 1).map Entry.synthesis = some Synthesis.Participle ∧
    (mlParticiple.get 0).map Entry.part_of_speech = some POS.Verb ∧
    (mlParticiple.get 0).map Entry.transitivity = some Transitivity.Intransitive := by
  decide

/-- C7 amended: the participle rule of the full-sequence scan, with the
passive-form test stated on the UTF-8 byte length of the participle text
(which is what the code compares with 2).  A participle slot is rejected at
index 0.  Otherwise, when the preceding slot is verb-like, it is accepted
exactly when the 2-byte passive forms have a Transitive predecessor and any
following slot carries one of the five allowed suffix texts; when the
preceding slot is not verb-like, exactly when the preceding text is one of
the five preposition-like roots. -/
theorem check_participle_amended :
    (∀ ml : Morphemes, check_participle 0 ml = false) ∧
    (∀ (index : Nat) (ml : Morphemes) (cur prev : Entry),
      index ≠ 0 → ml.morpheme_list.length = 9 → ml.last_index < 9 →
      ml.get index = some cur → ml.get (index - 1) = some prev →
      (check_participle index ml = true ↔
        ((prev.part_of_speech = POS.Verb ∨
          prev.part_of_speech = POS.SubstantiveVerb) ∧
          (utf8Len cur.word = 2 → prev.transitivity = Transitivity.Transitive) ∧
          (index < ml.last_index →
            ∃ nxt, ml.get (index + 1) = some nxt ∧
              (nxt.word = str "aĵ" ∨ nxt.word = str "ul" ∨ nxt.word = str "in" ∨
               nxt.word = str "ec" ∨ nxt.word = str "ar"))) ∨
        (¬(prev.part_of_speech = POS.Verb ∨
           prev.part_of_speech = POS.SubstantiveVerb) ∧
          (prev.word = str "antaŭ" ∨ prev.word = str "anstataŭ" ∨
           prev.word = str "ĉirkaŭ" ∨ prev.word = str "kontraŭ" ∨
           prev.word = str "super")))) := by
  constructor
  · intro ml
    simp [check_participle]
  · intro index ml cur prev hidx hlen hlast hcur hprev
    unfold check_participle
    rw [if_neg hidx, hcur, hprev]
    dsimp only
    by_cases hlt : index < ml.last_index
    · obtain ⟨nxt, hnxt⟩ : ∃ nxt, ml.get (index + 1) = some nxt := by
        have h9 : index + 1 < ml.morpheme_list.length := by omega
        exact ⟨ml.morpheme_list.get ⟨index + 1, h9⟩, List.get?_eq_get h9⟩
      rw [if_pos hlt]
      conv_lhs => rw [hnxt]
      dsimp only
      by_cases hpos : prev.part_of_speech = POS.Verb ∨
          prev.part_of_speech = POS.SubstantiveVerb
      · rw [if_pos hpos]
        by_cases h2 : utf8Len cur.word = 2 ∧
            prev.transitivity ≠ Transitivity.Transitive
        · rw [if_pos h2]
          constructor
          · intro hF; exact Bool.noConfusion hF
          · rintro (⟨-, hB, -⟩ | ⟨hnA, -⟩)
            · exact absurd (hB h2.1) h2.2
            · exact absurd hpos hnA
        · rw [if_neg h2, if_pos hlt, decide_eq_true_eq]
          constructor
          · intro hw
            refine Or.inl ⟨hpos, fun hu => ?_, fun _ => ⟨nxt, hnxt, hw⟩⟩
            by_contra htr
            exact h2 ⟨hu, htr⟩
          · rintro (⟨-, -, hC⟩ | ⟨hnA, -⟩)
            · obtain ⟨nxt2, hnxt2, hw⟩ := hC hlt
              rw [hnxt] at hnxt2
              cases hnxt2
              exact hw
            · exact absurd hpos hnA
      · rw [if_neg hpos, decide_eq_true_eq]
        constructor
        · intro hw; exact Or.inr ⟨hpos, hw⟩
        · rintro (⟨hA, -, -⟩ | ⟨-, hw⟩)
          · exact absurd hA hpos
          · exact hw
    · rw [if_neg hlt]
      dsimp only
      by_cases hpos : prev.part_of_speech = POS.Verb ∨
          prev.part_of_speech = POS.SubstantiveVerb
      · rw [if_pos hpos]
        by_cases h2 : utf8Len cur.word = 2 ∧
            prev.transitivity ≠ Transitivity.Transitive
        · rw [if_pos h2]
          constructor
          · intro hF; exact Bool.noConfusion hF
          · rintro (⟨-, hB, -⟩ | ⟨hnA, -⟩)
            · exact absurd (hB h2.1) h2.2
            · exact absurd hpos hnA
        · rw [if_neg h2, if_neg hlt]
          constructor
          · intro _tt
            refine Or.inl ⟨hpos, fun hu => ?_, fun hlt2 => absurd hlt2 hlt⟩
            by_contra htr
            exact h2 ⟨hu, htr⟩
          · intro _h; rfl
      · rw [if_neg hpos, decide_eq_true_eq]
        constructor
        · intro hw; exact Or.inr ⟨hpos, hw⟩
        · rintro (⟨hA, -, -⟩ | ⟨-, hw⟩)
          · exact absurd hA hpos
          · exact hw

/-- Witness for C7 amended: a participle slot is rejected at index 0, and
the concrete sequence with an intransitive verb before the 3-byte participle
text ĉa is accepted. -/
theorem check_participle_amended_witness :
    check_participle 0 mlParticiple = false ∧
    check_participle 1 mlParticiple = true := by
  refine ⟨check_participle_amended.1 mlParticiple, ?_⟩
  have h := check_participle_amended.2 1 mlParticiple entryCxa entryVerbIntrans
    (by decide) (by decide) (by decide) (by decide) (by decide)
  rw [h]
  exact Or.inl ⟨by decide, fun hu => absurd hu (by decide),
    fun hlt => absurd hlt (by decide)⟩

/-- Counterexample to C8: the pejorative suffix rule check_acx accepts a
preceding Participle slot as well (the code tests pos at or below Adjective
OR pos equal to Participle), so acceptance is not limited to predecessors at
or below Adjective in the ordinal order. -/
theorem check_acx_counterexample :
    (check_suffix (str "aĉ") 1 mlAcx).1 = true ∧
    (check_acx 1 mlAcx).1 = true ∧
    (mlAcx.get 0).map Entry.part_of_speech = some POS.Participle ∧
    ¬ POS.Participle.rank ≤ POS.Adjective.rank := by
  decide

/-- C8 amended: for a suffix slot not at index 0, the diminutive and
augmentative rule check_eg_et copies the preceding slot's category, meaning
and transitivity onto the current slot and accepts exactly when the
preceding category is at or below Adjective in the ordinal order; the
pejorative rule check_acx does the same except that it also accepts (and
copies) when the preceding category is Participle.  On rejection, and on
every slot other than the current one, the buffer is unchanged, and
last_index never changes. -/
theorem check_eg_et_acx_amended (index : Nat) (ml : Morphemes)
    (cur prev : Entry) (hidx : index ≠ 0)
    (hcur : ml.get index = some cur) (hprev : ml.get (index - 1) = some prev) :
    (check_eg_et index ml =
      if prev.part_of_speech.rank ≤ POS.Adjective.rank then
        (true, ml.setEntry index
          { cur with
              part_of_speech := prev.part_of_speech
              meaning := prev.meaning
              transitivity := prev.transitivity })
      else (false, ml)) ∧
    (check_acx index ml =
      if prev.part_of_speech.rank ≤ POS.Adjective.rank ∨
         prev.part_of_speech = POS.Participle then
        (true, ml.setEntry index
          { cur with
              part_of_speech := prev.part_of_speech
              meaning := prev.meaning
              transitivity := prev.transitivity })
      else (false, ml)) ∧
    (∀ j, j ≠ index →
      ((check_eg_et index ml).2.get j = ml.get j ∧
       (check_acx index ml).2.get j = ml.get j)) ∧
    (check_eg_et index ml).2.last_index = ml.last_index ∧
    (check_acx index ml).2.last_index = ml.last_index := by
  have heg : check_eg_et index ml =
      if prev.part_of_speech.rank ≤ POS.Adjective.rank then
        (true, ml.setEntry index
          { cur with
              part_of_speech := prev.part_of_speech
              meaning := prev.meaning
              transitivity := prev.transitivity })
      else (false, ml) := by
    unfold check_eg_et
    rw [if_neg hidx, hprev, hcur]
  have hacx : check_acx index ml =
      if prev.part_of_speech.rank ≤ POS.Adjective.rank ∨
         prev.part_of_speech = POS.Participle then
        (true, ml.setEntry index
          { cur with
              part_of_speech := prev.part_of_speech
              meaning := prev.meaning
              transitivity := prev.transitivity })
      else (false, ml) := by
    unfold check_acx
    rw [if_neg hidx, hprev, hcur]
  refine ⟨heg, hacx, ?_, ?_, ?_⟩
  · intro j hj
    constructor
    · rw [heg]
      split
      · simp only [Morphemes.get, Morphemes.setEntry]
        exact List.get?_set_ne _ _ (fun h => hj h.symm)
      · rfl
    · rw [hacx]
      split
      · simp only [Morphemes.get, Morphemes.setEntry]
        exact List.get?_set_ne _ _ (fun h => hj h.symm)
      · rfl
  · rw [heg]; split <;> rfl
  · rw [hacx]; split <;> rfl

/-- Witness for C8 amended, at index 1 of the concrete sequence whose slot 0
is a Participle: check_eg_et rejects there while check_acx accepts and
copies the three fields. -/
theorem check_eg_et_acx_amended_witness :
    check_eg_et 1 mlAcx = (false, mlAcx) ∧
    (check_acx 1 mlAcx).1 = true ∧
    ((check_acx 1 mlAcx).2.get 1).map Entry.part_of_speech =
      some POS.Participle := by
  have h := check_eg_et_acx_amended 1 mlAcx entryAcx entryParticipleIt
    (by decide) (by decide) (by decide)
  refine ⟨?_, ?_, ?_⟩
  · rw [h.1]; decide
  · rw [h.2.1]; decide
  · rw [h.2.1]; decide

/-- What the suffix rules may do to the buffer: they change at most the
descriptive fields of the slot at the given index, never its word, never
another slot, never last_index, never the ending, never the buffer size. -/
def SlotOnly (ml ml' : Morphemes) (index : Nat) : Prop :=
  ml'.last_index = ml.last_index ∧
  ml'.ending = ml.ending ∧
  ml'.morpheme_list.length = ml.morpheme_list.length ∧
  (∀ j, j ≠ index → ml'.get j = ml.get j) ∧
  ml'.wordAt index = ml.wordAt index

theorem slotOnly_refl (ml : Morphemes) (index : Nat) : SlotOnly ml ml index :=
  ⟨rfl, rfl, rfl, fun _ _ => rfl, rfl⟩

theorem setEntry_slotOnly (ml : Morphemes) (index : Nat) (cur e : Entry)
    (hcur : ml.get index = some cur) (hw : e.word = cur.word) :
    SlotOnly ml (ml.setEntry index e) index := by
  refine ⟨rfl, rfl, by simp [Morphemes.setEntry], ?_, ?_⟩
  · intro j hj
    simp only [Morphemes.get, Morphemes.setEntry]
    exact List.get?_set_ne _ _ (fun h => hj h.symm)
  · have hlt : index < ml.morpheme_list.length := by
      by_contra hge
      rw [Morphemes.get, List.get?_eq_none.2 (by omega)] at hcur
      exact Option.noConfusion hcur
    simp only [Morphemes.wordAt, Morphemes.setEntry,
      List.get?_set_eq_of_lt _ hlt]
    rw [show ml.morpheme_list.get? index = some cur from hcur, hw]

theorem check_acx_slotOnly (index : Nat) (ml : Morphemes) :
    SlotOnly ml (check_acx index ml).2 index := by
  unfold check_acx
  split
  · split
    · next cur hcur => exact setEntry_slotOnly ml index cur _ hcur rfl
    · exact slotOnly_refl ml index
  · split
    · exact slotOnly_refl ml index
    · split
      · exact slotOnly_refl ml index
      · next cur hcur =>
        dsimp only
        split
        · exact setEntry_slotOnly ml index cur _ hcur rfl
        · exact slotOnly_refl ml index

theorem check_ad_slotOnly (index : Nat) (ml : Morphemes) :
    SlotOnly ml (check_ad index ml).2 index := by
  unfold check_ad
  split
  · exact slotOnly_refl ml index
  · split
    · exact slotOnly_refl ml index
    · split
      · exact slotOnly_refl ml index
      · next cur hcur =>
        dsimp only
        split
        · exact setEntry_slotOnly ml index cur _ hcur rfl
        · exact slotOnly_refl ml index

theorem check_ec_slotOnly (index : Nat) (ml : Morphemes) :
    SlotOnly ml (check_ec index ml).2 index := by
  unfold check_ec
  split
  · exact slotOnly_refl ml index
  · split
    · exact slotOnly_refl ml index
    · split
      · exact slotOnly_refl ml index
      · next cur hcur =>
        dsimp only
        split
        · exact setEntry_slotOnly ml index cur _ hcur rfl
        · exact slotOnly_refl ml index

theorem check_eg_et_slotOnly (index : Nat) (ml : Morphemes) :
    SlotOnly ml (check_eg_et index ml).2 index := by
  unfold check_eg_et
  split
  · exact slotOnly_refl ml index
  · split
    · exact slotOnly_refl ml index
    · split
      · exact slotOnly_refl ml index
      · next cur hcur =>
        dsimp only
        split
        · exact setEntry_slotOnly ml index cur _ hcur rfl
        · exact slotOnly_refl ml index

theorem check_estr_slotOnly (index : Nat) (ml : Morphemes) :
    SlotOnly ml (check_estr index ml).2 index := by
  unfold check_estr
  split
  · split
    · next cur hcur => exact setEntry_slotOnly ml index cur _ hcur rfl
    · exact slotOnly_refl ml index
  · split
    · exact slotOnly_refl ml index
    · split
      · exact slotOnly_refl ml index
      · next cur hcur =>
        dsimp only
        split
        · exact setEntry_slotOnly ml index cur _ hcur rfl
        · exact slotOnly_refl ml index

set_option maxHeartbeats 1600000 in
theorem check_suffix_slotOnly (s : List Char) (index : Nat) (ml : Morphemes) :
    SlotOnly ml (check_suffix s index ml).2 index := by
  unfold check_suffix
  by_cases h1 : s = str "aĉ"
  · rw [if_pos h1]; exact check_acx_slotOnly index ml
  rw [if_neg h1]
  by_cases h2 : s = str "ad"
  · rw [if_pos h2]; exact check_ad_slotOnly index ml
  rw [if_neg h2]
  by_cases h3 : s = str "aĵ"
  · rw [if_pos h3]; exact slotOnly_refl ml index
  rw [if_neg h3]
  by_cases h4 : s = str "an"
  · rw [if_pos h4]; exact slotOnly_refl ml index
  rw [if_neg h4]
  by_cases h5 : s = str "ar"
  · rw [if_pos h5]; exact slotOnly_refl ml index
  rw [if_neg h5]
  by_cases h6 : s = str "ebl"
  · rw [if_pos h6]; exact slotOnly_refl ml index
  rw [if_neg h6]
  by_cases h7 : s = str "ec"
  · rw [if_pos h7]; exact check_ec_slotOnly index ml
  rw [if_neg h7]
  by_cases h8 : s = str "eg"
  · rw [if_pos h8]; exact check_eg_et_slotOnly index ml
  rw [if_neg h8]
  by_cases h9 : s = str "et"
  · rw [if_pos h9]; exact check_eg_et_slotOnly index ml
  rw [if_neg h9]
  by_cases h10 : s = str "ej"
  · rw [if_pos h10]; exact slotOnly_refl ml index
  rw [if_neg h10]
  by_cases h11 : s = str "em"
  · rw [if_pos h11]; exact slotOnly_refl ml index
  rw [if_neg h11]
  by_cases h12 : s = str "end"
  · rw [if_pos h12]; exact slotOnly_refl ml index
  rw [if_neg h12]
  by_cases h13 : s = str "ind"
  · rw [if_pos h13]; exact slotOnly_refl ml index
  rw [if_neg h13]
  by_cases h14 : s = str "er"
  · rw [if_pos h14]; exact slotOnly_refl ml index
  rw [if_neg h14]
  by_cases h15 : s = str "ik"
  · rw [if_pos h15]; exact slotOnly_refl ml index
  rw [if_neg h15]
  by_cases h16 : s = str "ing"
  · rw [if_pos h16]; exact slotOnly_refl ml index
  rw [if_neg h16]
  by_cases h17 : s = str "ism"
  · rw [if_pos h17]; exact slotOnly_refl ml index
  rw [if_neg h17]
  by_cases h18 : s = str "estr"
  · rw [if_pos h18]; exact check_estr_slotOnly index ml
  rw [if_neg h18]
  by_cases h19 : s = str "id"
  · rw [if_pos h19]; exact slotOnly_refl ml index
  rw [if_neg h19]
  by_cases h20 : s = str "ig"
  · rw [if_pos h20]; exact slotOnly_refl ml index
  rw [if_neg h20]
  by_cases h21 : s = str "iĝ"
  · rw [if_pos h21]; exact slotOnly_refl ml index
  rw [if_neg h21]
  by_cases h22 : s = str "il"
  · rw [if_pos h22]; exact slotOnly_refl ml index
  rw [if_neg h22]
  by_cases h23 : s = str "in"
  · rw [if_pos h23]; exact slotOnly_refl ml index
  rw [if_neg h23]
  by_cases h24 : s = str "ist"
  · rw [if_pos h24]; exact slotOnly_refl ml index
  rw [if_neg h24]
  by_cases h25 : s = str "obl"
  · rw [if_pos h25]; exact slotOnly_refl ml index
  rw [if_neg h25]
  by_cases h26 : s = str "on"
  · rw [if_pos h26]; exact slotOnly_refl ml index
  rw [if_neg h26]
  by_cases h27 : s = str "op"
  · rw [if_pos h27]; exact slotOnly_refl ml index
  rw [if_neg h27]
  by_cases h28 : s = str "uj"
  · rw [if_pos h28]; exact slotOnly_refl ml index
  rw [if_neg h28]
  by_cases h29 : s = str "ul"
  · rw [if_pos h29]; exact slotOnly_refl ml index
  rw [if_neg h29]
  exact slotOnly_refl ml index

/-- What any stretch of the segmentation search starting at a given index may
do to the buffer: the ending and the buffer size never change, a buffer whose
last_index is in bounds keeps it in bounds, and slots below the index are
untouched. -/
def BufPre (ml ml' : Morphemes) (index : Nat) : Prop :=
  ml'.ending = ml.ending ∧
  ml'.morpheme_list.length = ml.morpheme_list.length ∧
  (ml.last_index ≤ 8 → ml'.last_index ≤ 8) ∧
  (∀ j, j < index → ml'.get j = ml.get j)

/-- What a successful return of the search at a given index guarantees: the
final buffer passed the full-sequence scan, the search filled the buffer from
the index on, and the characters of the filled slots (periods ignored)
exactly account for the remaining stem. -/
def SearchPost (rest : List Char) (index : Nat) (ml' : Morphemes) : Prop :=
  scan_morphemes ml' = true ∧ index ≤ ml'.last_index ∧
  ml'.wordsLenFrom index = rest.length

theorem bufPre_refl (ml : Morphemes) (index : Nat) : BufPre ml ml index :=
  ⟨rfl, rfl, fun h => h, fun _ _ => rfl⟩

theorem bufPre_trans {ml1 ml2 ml3 : Morphemes} {index : Nat}
    (h12 : BufPre ml1 ml2 index) (h23 : BufPre ml2 ml3 index) :
    BufPre ml1 ml3 index := by
  obtain ⟨he12, hl12, h812, hg12⟩ := h12
  obtain ⟨he23, hl23, h823, hg23⟩ := h23
  exact ⟨he23.trans he12, hl23.trans hl12, fun h => h823 (h812 h),
    fun j hj => (hg23 j hj).trans (hg12 j hj)⟩

theorem bufPre_mono {ml ml' : Morphemes} {i j : Nat} (hij : j ≤ i)
    (h : BufPre ml ml' i) : BufPre ml ml' j :=
  ⟨h.1, h.2.1, h.2.2.1, fun k hk => h.2.2.2 k (by omega)⟩

theorem slotOnly_bufPre {ml ml' : Morphemes} {index : Nat}
    (h : SlotOnly ml ml' index) : BufPre ml ml' index :=
  ⟨h.2.1, h.2.2.1, fun h8 => h.1 ▸ h8, fun j hj => h.2.2.2.1 j (by omega)⟩

theorem put_bufPre (ml : Morphemes) (index : Nat) (e : Entry)
    (h8 : index ≤ 8) : BufPre ml (ml.put index e) index := by
  refine ⟨rfl, by simp [Morphemes.put], fun _ => h8, ?_⟩
  intro j hj
  simp only [Morphemes.get, Morphemes.put]
  exact List.get?_set_ne _ _ (by omega)

theorem put_last (ml : Morphemes) (index : Nat) (e : Entry) :
    (ml.put index e).last_index = index := rfl

theorem put_length (ml : Morphemes) (index : Nat) (e : Entry) :
    (ml.put index e).morpheme_list.length = ml.morpheme_list.length := by
  simp [Morphemes.put]

theorem put_wordAt (ml : Morphemes) (index : Nat) (e : Entry)
    (h : index < ml.morpheme_list.length) :
    (ml.put index e).wordAt index = e.word := by
  unfold Morphemes.wordAt Morphemes.put
  rw [List.get?_set_eq_of_lt _ h]

theorem new_separator_facts (s : List Char) (e : Entry)
    (h : Entry.new_separator s = some e) :
    e.word = s ∧ nonDotLen s = 1 := by
  unfold Entry.new_separator at h
  split_ifs at h with h1 h2 h3
  · cases h; exact ⟨h1.symm ▸ rfl, by rw [h1]; decide⟩
  · cases h; exact ⟨h2.symm ▸ rfl, by rw [h2]; decide⟩
  · cases h; exact ⟨h3.symm ▸ rfl, by rw [h3]; decide⟩

theorem wordAt_of_get {ml : Morphemes} {index : Nat} {e : Entry}
    (h : ml.get index = some e) : ml.wordAt index = e.word := by
  unfold Morphemes.wordAt
  unfold Morphemes.get at h
  rw [h]

theorem wordsLenFrom_eq_last {ml : Morphemes} {index : Nat}
    (h : ml.last_index = index) :
    ml.wordsLenFrom index = nonDotLen (ml.wordAt index) := by
  unfold Morphemes.wordsLenFrom
  rw [h, show index + 1 - index = 1 from by omega]
  simp

theorem wordsLenFrom_step {ml : Morphemes} {index : Nat}
    (h : index ≤ ml.last_index) :
    ml.wordsLenFrom index =
      nonDotLen (ml.wordAt index) + ml.wordsLenFrom (index + 1) := by
  unfold Morphemes.wordsLenFrom
  rw [show ml.last_index + 1 - index = (ml.last_index + 1 - (index + 1)) + 1
    from by omega, List.range'_succ]
  simp

theorem check_synthesis_last_spec (index : Nat) (ml : Morphemes) :
    SlotOnly ml (check_synthesis_last index ml).2 index ∧
    ((check_synthesis_last index ml).1 = true →
      scan_morphemes (check_synthesis_last index ml).2 = true) := by
  unfold check_synthesis_last
  split
  · exact ⟨slotOnly_refl ml index, fun h => Bool.noConfusion h⟩
  · split
    · dsimp only
      split
      · exact ⟨check_suffix_slotOnly _ index ml, fun h => h⟩
      · exact ⟨check_suffix_slotOnly _ index ml, fun h => Bool.noConfusion h⟩
    · exact ⟨slotOnly_refl ml index, fun h => h⟩

theorem find_whole_word_spec (dict : Dict) (hWF : WFdict dict)
    (rest : List Char) (index : Nat) (ml : Morphemes)
    (h8 : index ≤ 8) (h9 : ml.morpheme_list.length = 9) :
    BufPre ml (find_whole_word dict rest index ml).2 index ∧
    ((find_whole_word dict rest index ml).1 = true →
      SearchPost rest index (find_whole_word dict rest index ml).2) := by
  unfold find_whole_word
  by_cases hp : 0 < index
  · rw [if_pos hp]
    rcases hdict : dict rest with _ | entry
    · exact ⟨bufPre_refl ml index, fun h => Bool.noConfusion h⟩
    · dsimp only
      by_cases hsyn : entry.synthesis ≠ Synthesis.No
      · rw [if_pos hsyn]
        have hcsl := check_synthesis_last_spec index (ml.put index entry)
        have hpre : BufPre ml (check_synthesis_last index (ml.put index entry)).2
            index :=
          bufPre_trans (put_bufPre ml index entry h8) (slotOnly_bufPre hcsl.1)
        refine ⟨hpre, fun hsucc => ?_⟩
        have hlast : (check_synthesis_last index (ml.put index entry)).2.last_index
            = index := by
          rw [hcsl.1.1, put_last]
        refine ⟨hcsl.2 hsucc, by omega, ?_⟩
        rw [wordsLenFrom_eq_last hlast, hcsl.1.2.2.2.2,
          put_wordAt ml index entry (by omega), (hWF rest entry hdict).2]
      · rw [if_neg hsyn]
        exact ⟨bufPre_refl ml index, fun h => Bool.noConfusion h⟩
  · rw [if_neg hp]
    exact ⟨bufPre_refl ml index, fun h => Bool.noConfusion h⟩

/-- The joint invariant of the segmentation search, proved by strong
induction on the length of the remaining stem: each of the three mutually
recursive functions respects BufPre, and on success the final buffer passed
the full-sequence scan and its filled slots account exactly for the
characters of the remaining stem. -/
theorem search_master (dict : Dict) (hWF : WFdict dict) :
    ∀ (n : Nat) (rest : List Char), rest.length = n →
      (∀ (index : Nat), index ≤ 8 → ∀ (sizes : List Nat) (ml : Morphemes),
        ml.morpheme_list.length = 9 →
        BufPre ml (try_sizes dict rest index sizes ml).2 index ∧
        ((try_sizes dict rest index sizes ml).1 = true →
          SearchPost rest index (try_sizes dict rest index sizes ml).2)) ∧
      (∀ (index : Nat) (ml : Morphemes), ml.morpheme_list.length = 9 →
        BufPre ml (find_morpheme dict rest index ml).2 index ∧
        ((find_morpheme dict rest index ml).1 = true →
          SearchPost rest index (find_morpheme dict rest index ml).2)) ∧
      (∀ (index : Nat) (ml : Morphemes), index ≤ 8 →
        ml.morpheme_list.length = 9 →
        BufPre ml (check_synthesis_cont dict rest index ml).2 index ∧
        (check_synthesis_cont dict rest index ml).2.wordAt index = ml.wordAt index ∧
        ((check_synthesis_cont dict rest index ml).1 = true →
          scan_morphemes (check_synthesis_cont dict rest index ml).2 = true ∧
          index + 1 ≤ (check_synthesis_cont dict rest index ml).2.last_index ∧
          (check_synthesis_cont dict rest index ml).2.wordsLenFrom (index + 1) =
            rest.length)) := by
  intro n
  induction n using Nat.strong_induction_on with
  | _ n IH =>
  intro rest hrest
  have htry : ∀ (index : Nat), index ≤ 8 → ∀ (sizes : List Nat) (ml : Morphemes),
      ml.morpheme_list.length = 9 →
      BufPre ml (try_sizes dict rest index sizes ml).2 index ∧
      ((try_sizes dict rest index sizes ml).1 = true →
        SearchPost rest index (try_sizes dict rest index sizes ml).2) := by
    intro index h8 sizes
    induction sizes with
    | nil =>
      intro ml h9
      rw [try_sizes]
      exact ⟨bufPre_refl ml index, fun h => Bool.noConfusion h⟩
    | cons size ss ihs =>
      intro ml h9
      rw [try_sizes]
      by_cases hg : 2 ≤ size ∧ size + 2 ≤ rest.length
      · rw [dif_pos hg]
        rcases hdict : dict (rest.take size) with _ | entry
        · exact ihs ml h9
        · dsimp only
          by_cases hsyn : entry.synthesis ≠ Synthesis.No
          · rw [if_pos hsyn]
            have hlt : (rest.drop size).length < n := by
              rw [List.length_drop]; omega
            have h91 : (ml.put index entry).morpheme_list.length = 9 := by
              rw [put_length]; exact h9
            obtain ⟨hcpre, hcword, hcpost⟩ :=
              (IH _ hlt (rest.drop size) rfl).2.2 index (ml.put index entry) h8 h91
            have hpre1 : BufPre ml
                (check_synthesis_cont dict (rest.drop size) index
                  (ml.put index entry)).2 index :=
              bufPre_trans (put_bufPre ml index entry h8) hcpre
            by_cases ha : (check_synthesis_cont dict (rest.drop size) index
                (ml.put index entry)).1 = true
            · rw [if_pos ha]
              refine ⟨hpre1, fun _ => ?_⟩
              dsimp only
              obtain ⟨hscan, hlast, hwlen⟩ := hcpost ha
              refine ⟨hscan, by omega, ?_⟩
              rw [wordsLenFrom_step (by omega), hcword,
                put_wordAt ml index entry (by omega), hwlen, List.length_drop,
                (hWF _ entry hdict).2, List.length_take]
              omega
            · rw [if_neg ha]
              have h92 : (check_synthesis_cont dict (rest.drop size) index
                  (ml.put index entry)).2.morpheme_list.length = 9 := by
                rw [hcpre.2.1, put_length]; exact h9
              obtain ⟨hrpre, hrpost⟩ := ihs _ h92
              exact ⟨bufPre_trans hpre1 hrpre, hrpost⟩
          · rw [if_neg hsyn]
            exact ihs ml h9
      · rw [dif_neg hg]
        exact ihs ml h9
  have hfind : ∀ (index : Nat) (ml : Morphemes), ml.morpheme_list.length = 9 →
      BufPre ml (find_morpheme dict rest index ml).2 index ∧
      ((find_morpheme dict rest index ml).1 = true →
        SearchPost rest index (find_morpheme dict rest index ml).2) := by
    intro index ml h9
    rw [find_morpheme]
    by_cases h9i : 9 ≤ index
    · rw [if_pos h9i]
      exact ⟨bufPre_refl ml index, fun h => Bool.noConfusion h⟩
    · rw [if_neg h9i]
      have h8 : index ≤ 8 := by omega
      dsimp only
      obtain ⟨hwpre, hwpost⟩ := find_whole_word_spec dict hWF rest index ml h8 h9
      by_cases hw1 : (find_whole_word dict rest index ml).1 = true
      · rw [if_pos hw1]
        exact ⟨hwpre, fun _ => hwpost hw1⟩
      · rw [if_neg hw1]
        have h9w : (find_whole_word dict rest index ml).2.morpheme_list.length
            = 9 := by rw [hwpre.2.1]; exact h9
        obtain ⟨hlpre, hlpost⟩ := htry index h8
          (candidateSizes rest.length) _ h9w
        have hpre2 : BufPre ml
            (try_sizes dict rest index (candidateSizes rest.length)
              (find_whole_word dict rest index ml).2).2 index :=
          bufPre_trans hwpre hlpre
        by_cases hl1 : (try_sizes dict rest index (candidateSizes rest.length)
            (find_whole_word dict rest index ml).2).1 = true
        · rw [if_pos hl1]
          exact ⟨hpre2, fun _ => hlpost hl1⟩
        · rw [if_neg hl1]
          by_cases hsep : index = 0 ∨ rest.length < 3
          · rw [dif_pos hsep]
            exact ⟨hpre2, fun h => Bool.noConfusion h⟩
          · rw [dif_neg hsep]
            rcases hns : Entry.new_separator (rest.take 1) with _ | sep
            · exact ⟨hpre2, fun h => Bool.noConfusion h⟩
            · have hlen3 : 3 ≤ rest.length := by omega
              have hlt : (rest.drop 1).length < n := by
                rw [List.length_drop]; omega
              have h93 : ((try_sizes dict rest index (candidateSizes rest.length)
                  (find_whole_word dict rest index ml).2).2.put index
                    sep).morpheme_list.length = 9 := by
                rw [put_length, hlpre.2.1, hwpre.2.1]; exact h9
              obtain ⟨hcpre, hcword, hcpost⟩ :=
                (IH _ hlt (rest.drop 1) rfl).2.2 index _ h8 h93
              have hpre3 : BufPre ml (check_synthesis_cont dict (rest.drop 1)
                  index ((try_sizes dict rest index (candidateSizes rest.length)
                    (find_whole_word dict rest index ml).2).2.put index sep)).2
                  index :=
                bufPre_trans hpre2 (bufPre_trans (put_bufPre _ index sep h8) hcpre)
              refine ⟨hpre3, fun hsucc => ?_⟩
              dsimp only
              obtain ⟨hscan, hlast, hwlen⟩ := hcpost hsucc
              refine ⟨hscan, by omega, ?_⟩
              obtain ⟨hsw, hsl⟩ := new_separator_facts _ sep hns
              rw [wordsLenFrom_step (by omega), hcword,
                put_wordAt _ index sep (by rw [hlpre.2.1, hwpre.2.1]; omega),
                hwlen, List.length_drop, hsw, hsl]
              omega
  have hcont : ∀ (index : Nat) (ml : Morphemes), index ≤ 8 →
      ml.morpheme_list.length = 9 →
      BufPre ml (check_synthesis_cont dict rest index ml).2 index ∧
      (check_synthesis_cont dict rest index ml).2.wordAt index = ml.wordAt index ∧
      ((check_synthesis_cont dict rest index ml).1 = true →
        scan_morphemes (check_synthesis_cont dict rest index ml).2 = true ∧
        index + 1 ≤ (check_synthesis_cont dict rest index ml).2.last_index ∧
        (check_synthesis_cont dict rest index ml).2.wordsLenFrom (index + 1) =
          rest.length) := by
    intro index ml h8 h9
    rw [check_synthesis_cont]
    rcases hget : ml.get index with _ | entry
    · exact ⟨bufPre_refl ml index, rfl, fun h => Bool.noConfusion h⟩
    · dsimp only
      by_cases hsyn : entry.synthesis = Synthesis.Suffix
      · rw [if_pos hsyn]
        have hso := check_suffix_slotOnly entry.word index ml
        by_cases hsuf : (check_suffix entry.word index ml).1 = true
        · rw [if_pos hsuf]
          have h9s : (check_suffix entry.word index ml).2.morpheme_list.length
              = 9 := by rw [hso.2.2.1]; exact h9
          obtain ⟨hfpre, hfpost⟩ := hfind (index + 1) _ h9s
          have hword : (find_morpheme dict rest (index + 1)
              (check_suffix entry.word index ml).2).2.wordAt index =
              ml.wordAt index := by
            unfold Morphemes.wordAt
            rw [show (find_morpheme dict rest (index + 1)
                (check_suffix entry.word index ml).2).2.morpheme_list.get? index
                = (check_suffix entry.word index ml).2.morpheme_list.get? index
              from hfpre.2.2.2 index (by omega)]
            exact hso.2.2.2.2
          refine ⟨bufPre_trans (slotOnly_bufPre hso)
            (bufPre_mono (by omega) hfpre), hword, fun hsucc => ?_⟩
          obtain ⟨hscan, hlast, hwlen⟩ := hfpost hsucc
          exact ⟨hscan, hlast, hwlen⟩
        · rw [if_neg hsuf]
          exact ⟨slotOnly_bufPre hso, hso.2.2.2.2, fun h => Bool.noConfusion h⟩
      · rw [if_neg hsyn]
        obtain ⟨hfpre, hfpost⟩ := hfind (index + 1) ml h9
        have hword : (find_morpheme dict rest (index + 1) ml).2.wordAt index =
            ml.wordAt index := by
          unfold Morphemes.wordAt
          rw [show (find_morpheme dict rest (index + 1) ml).2.morpheme_list.get?
              index = ml.morpheme_list.get? index
            from hfpre.2.2.2 index (by omega)]
        refine ⟨bufPre_mono (by omega) hfpre, hword, fun hsucc => ?_⟩
        obtain ⟨hscan, hlast, hwlen⟩ := hfpost hsucc
        exact ⟨hscan, hlast, hwlen⟩
  exact ⟨htry, hfind, hcont⟩

theorem scan_sep_le {ml : Morphemes} (h : scan_morphemes ml = true) :
    ml.count_separators ≤ 1 := by
  unfold scan_morphemes at h
  by_cases hc : 1 < ml.count_separators
  · rw [if_pos hc] at h
    exact Bool.noConfusion h
  · omega

theorem dictABCD_wf : WFdict dictABCD := by
  intro k e h
  unfold dictABCD at h
  split_ifs at h with h1 h2
  · cases h; subst h1; exact ⟨by decide, by decide⟩
  · cases h; subst h2; exact ⟨by decide, by decide⟩

/-- C5: the segmentation search fails immediately at slot index 9 (leaving
the buffer untouched), and every segmentation accepted as valid from index 0
uses at most 9 morpheme slots and carries at most one Separator-flagged slot
among slots 0..=last_index. -/
theorem find_morpheme_bounded :
    (∀ (dict : Dict) (rest : List Char) (index : Nat) (ml : Morphemes),
      9 ≤ index → find_morpheme dict rest index ml = (false, ml)) ∧
    (∀ (dict : Dict), WFdict dict → ∀ (e : Ending) (stem : List Char)
      (ml' : Morphemes),
      find_morpheme dict stem 0 (Morphemes.new e) = (true, ml') →
      ml'.last_index + 1 ≤ 9 ∧ ml'.count_separators ≤ 1) := by
  constructor
  · intro dict rest index ml h9
    rw [find_morpheme, if_pos h9]
  · intro dict hWF e stem ml' hfind
    have hm := (search_master dict hWF stem.length stem rfl).2.1 0
      (Morphemes.new e) (by simp [Morphemes.new])
    obtain ⟨hpre, hpost⟩ := hm
    rw [hfind] at hpre hpost
    obtain ⟨hscan, -, -⟩ := hpost rfl
    have hlast : ml'.last_index ≤ 8 := hpre.2.2.1 (by simp [Morphemes.new])
    exact ⟨by omega, scan_sep_le hscan⟩

unseal find_morpheme try_sizes check_synthesis_cont in
/-- Witness for C5: the search refuses index 9 outright, and the accepted
segmentation of the stem abcd over the two-root dictionary stays within the
bounds. -/
theorem find_morpheme_bounded_witness :
    find_morpheme emptyDict (str "ab") 9 (Morphemes.new SUB_O) =
      (false, Morphemes.new SUB_O) ∧
    (find_morpheme dictABCD (str "abcd") 0 (Morphemes.new SUB_O)).1 = true ∧
    (find_morpheme dictABCD (str "abcd") 0
      (Morphemes.new SUB_O)).2.last_index + 1 ≤ 9 ∧
    (find_morpheme dictABCD (str "abcd") 0
      (Morphemes.new SUB_O)).2.count_separators ≤ 1 := by
  have h1 : (find_morpheme dictABCD (str "abcd") 0 (Morphemes.new SUB_O)).1
      = true := by decide
  have heq : find_morpheme dictABCD (str "abcd") 0 (Morphemes.new SUB_O) =
      (true, (find_morpheme dictABCD (str "abcd") 0 (Morphemes.new SUB_O)).2) := by
    rw [← h1]
  have h3 := find_morpheme_bounded.2 dictABCD dictABCD_wf SUB_O (str "abcd") _ heq
  exact ⟨find_morpheme_bounded.1 emptyDict (str "ab") 9 (Morphemes.new SUB_O)
    (by omega), h1, h3.1, h3.2⟩

theorem toNat_ofNat_lt (m : Nat) (h : m < 0xD800) : (Char.ofNat m).toNat = m := by
  unfold Char.ofNat
  rw [dif_pos (Or.inl h)]
  rfl

theorem rustLowerChar_ne_nil (c : Char) : rustLowerChar c ≠ [] := by
  unfold rustLowerChar
  split_ifs <;> simp

theorem rustLowerChar_ne_dot (c : Char) (hc : c ≠ '.') :
    ∀ d ∈ rustLowerChar c, d ≠ '.' := by
  unfold rustLowerChar
  split_ifs with h1 h2 h3 h4
  · intro d hd
    simp only [List.mem_cons, List.mem_singleton, List.not_mem_nil] at hd
    rcases hd with rfl | rfl | hf
    · decide
    · decide
    · exact absurd hf (by simp)
  · intro d hd
    simp only [List.mem_singleton] at hd
    subst hd
    intro he
    have := congrArg Char.toNat he
    rw [toNat_ofNat_lt _ (by omega)] at this
    have hdot : Char.toNat '.' = 46 := by decide
    omega
  · intro d hd
    simp only [List.mem_singleton] at hd
    subst hd
    intro he
    have := congrArg Char.toNat he
    rw [toNat_ofNat_lt _ (by omega)] at this
    have hdot : Char.toNat '.' = 46 := by decide
    omega
  · intro d hd
    simp only [List.mem_singleton] at hd
    subst hd
    intro he
    have := congrArg Char.toNat he
    rw [toNat_ofNat_lt _ (by omega)] at this
    have hdot : Char.toNat '.' = 46 := by decide
    omega
  · intro d hd
    simp only [List.mem_singleton] at hd
    subst hd
    exact hc

theorem rustLowerStr_cons (c : Char) (l : List Char) :
    rustLowerStr (c :: l) = rustLowerChar c ++ rustLowerStr l := by
  simp [rustLowerStr]

theorem rustLowerStr_length_ge (l : List Char) :
    l.length ≤ (rustLowerStr l).length := by
  induction l with
  | nil => simp [rustLowerStr]
  | cons c cs ih =>
    rw [rustLowerStr_cons, List.length_append, List.length_cons]
    have hne := rustLowerChar_ne_nil c
    have : 1 ≤ (rustLowerChar c).length := by
      rcases he : rustLowerChar c with _ | ⟨d, ds⟩
      · exact absurd he hne
      · simp
    omega

theorem rustLowerStr_ne_dot (l : List Char) (h : ∀ c ∈ l, c ≠ '.') :
    ∀ d ∈ rustLowerStr l, d ≠ '.' := by
  induction l with
  | nil => simp [rustLowerStr]
  | cons c cs ih =>
    rw [rustLowerStr_cons]
    intro d hd
    rcases List.mem_append.1 hd with hd1 | hd2
    · exact rustLowerChar_ne_dot c (h c (List.mem_cons_self c cs)) d hd1
    · exact ih (fun x hx => h x (List.mem_cons_of_mem c hx)) d hd2

theorem removeDots_eq_self (l : List Char) (h : ∀ c ∈ l, c ≠ '.') :
    removeDots l = l := by
  unfold removeDots
  rw [List.filter_eq_self]
  intro a ha
  simpa using h a ha

theorem nonDotLen_of_dotfree (l : List Char) (h : ∀ c ∈ l, c ≠ '.') :
    nonDotLen l = l.length := by
  unfold nonDotLen
  rw [removeDots_eq_self l h]

theorem nonDotLen_append (a b : List Char) :
    nonDotLen (a ++ b) = nonDotLen a + nonDotLen b := by
  unfold nonDotLen removeDots
  rw [List.filter_append, List.length_append]

theorem nonDotLen_dot_cons (l : List Char) :
    nonDotLen ('.' :: l) = nonDotLen l := by
  unfold nonDotLen removeDots
  simp

theorem nonDotLen_cons_ne (c : Char) (l : List Char) (hc : c ≠ '.') :
    nonDotLen (c :: l) = nonDotLen l + 1 := by
  unfold nonDotLen removeDots
  rw [List.filter_cons, if_pos (by simpa using hc)]
  simp

theorem remove_hyphens_eq_self (l : List Char)
    (h : ∀ c ∈ l, is_hyphen c = false) : remove_hyphens l = l := by
  unfold remove_hyphens
  rw [List.filter_eq_self]
  intro a ha
  simp [h a ha]

theorem restore_go_filter : ∀ (analyzed orig : List Char) (idx : Nat)
    (res : List Char),
    restore_capitals_go orig idx analyzed = some res →
    removeDots res = removeDots ((orig.drop idx).take (nonDotLen analyzed)) := by
  intro analyzed
  induction analyzed with
  | nil =>
    intro orig idx res h
    rw [restore_capitals_go] at h
    cases h
    simp [nonDotLen, removeDots]
  | cons ch rest ih =>
    intro orig idx res h
    rw [restore_capitals_go] at h
    by_cases hch : ch = '.'
    · rw [if_pos hch] at h
      rcases hrec : restore_capitals_go orig idx rest with _ | r0
      · rw [hrec] at h
        exact Option.noConfusion h
      · rw [hrec] at h
        cases h
        subst hch
        rw [nonDotLen_dot_cons]
        show removeDots r0 = _
        exact ih orig idx r0 hrec
    · rw [if_neg hch] at h
      rcases hget : orig.get? idx with _ | c
      · rw [hget] at h
        exact Option.noConfusion h
      · rw [hget] at h
        rcases hrec : restore_capitals_go orig (idx + 1) rest with _ | r0
        · rw [hrec] at h
          exact Option.noConfusion h
        · rw [hrec] at h
          cases h
          have ihr := ih orig (idx + 1) r0 hrec
          have hidx : idx < orig.length := by
            by_contra hge
            rw [List.get?_eq_none.2 (by omega)] at hget
            exact Option.noConfusion hget
          have hdrop : orig.drop idx = c :: orig.drop (idx + 1) := by
            rw [List.drop_eq_getElem_cons hidx]
            have h2 : orig[idx]? = some c := by
              rw [← List.get?_eq_getElem?]; exact hget
            rw [List.getElem?_eq_getElem hidx, Option.some.injEq] at h2
            rw [h2]
          rw [nonDotLen_cons_ne ch rest hch, hdrop, List.take_succ_cons]
          unfold removeDots at ihr ⊢
          simp only [List.filter_cons]
          rw [ihr]

theorem analysisResult_filter {orig analyzed : List Char} {valid : Bool}
    {r : AnalysisResult} (h : AnalysisResult.new orig analyzed valid = some r)
    (hdf : ∀ c ∈ orig, c ≠ '.') (hlen : orig.length ≤ nonDotLen analyzed) :
    removeDots r.word = orig ∧ r.valid = valid := by
  unfold AnalysisResult.new restore_capitals at h
  rcases hres : restore_capitals_go orig 0 analyzed with _ | res
  · rw [hres] at h
    exact Option.noConfusion h
  · rw [hres] at h
    cases h
    have hf := restore_go_filter analyzed orig 0 res hres
    rw [List.drop_zero, List.take_of_length_le hlen, removeDots_eq_self orig hdf]
      at hf
    exact ⟨hf, rfl⟩

theorem ending_facts (w : List Char) (e : Ending) (h : Ending.new w = some e) :
    nonDotLen e.ending = e.length ∧ e.length + 2 ≤ w.length := by
  have hlen : w.reverse.length = w.length := List.length_reverse w
  unfold Ending.new at h
  rcases hr : w.reverse with _ | ⟨c1, _ | ⟨c2, _ | ⟨c3, rest3⟩⟩⟩
  · rw [hr] at h
    exact Option.noConfusion h
  · rw [hr] at h hlen
    simp only [List.length_cons, List.length_nil] at hlen
    simp only [Ending.newAux] at h
    rw [if_pos (show w.length < 3 by omega)] at h
    exact Option.noConfusion h
  · rw [hr] at h hlen
    simp only [List.length_cons, List.length_nil] at hlen
    simp only [Ending.newAux] at h
    rw [if_pos (show w.length < 3 by omega)] at h
    exact Option.noConfusion h
  · rw [hr] at h hlen
    simp only [List.length_cons] at hlen
    simp only [Ending.newAux] at h
    by_cases hg3 : w.length < 3
    · rw [if_pos hg3] at h
      exact Option.noConfusion h
    rw [if_neg hg3] at h
    by_cases ho : c1 = 'o'
    · rw [if_pos ho] at h
      cases h
      exact ⟨by decide, by simp only [SUB_O, SUB_ON, SUB_OJ, SUB_OJN, VERB_IS, VERB_AS, VERB_OS, VERB_I, VERB_U, VERB_US, ADJ_A, ADJ_AN, ADJ_AJ, ADJ_AJN, ADV_E, ADV_EN]; omega⟩
    rw [if_neg ho] at h
    by_cases hs : c1 = 's'
    · rw [if_pos hs] at h
      by_cases hg4 : w.length < 4
      · rw [if_pos hg4] at h
        exact Option.noConfusion h
      rw [if_neg hg4] at h
      by_cases ha : c2 = 'a'
      · rw [if_pos ha] at h
        cases h; exact ⟨by decide, by simp only [SUB_O, SUB_ON, SUB_OJ, SUB_OJN, VERB_IS, VERB_AS, VERB_OS, VERB_I, VERB_U, VERB_US, ADJ_A, ADJ_AN, ADJ_AJ, ADJ_AJN, ADV_E, ADV_EN]; omega⟩
      rw [if_neg ha] at h
      by_cases hi : c2 = 'i'
      · rw [if_pos hi] at h
        cases h; exact ⟨by decide, by simp only [SUB_O, SUB_ON, SUB_OJ, SUB_OJN, VERB_IS, VERB_AS, VERB_OS, VERB_I, VERB_U, VERB_US, ADJ_A, ADJ_AN, ADJ_AJ, ADJ_AJN, ADV_E, ADV_EN]; omega⟩
      rw [if_neg hi] at h
      by_cases hoo : c2 = 'o'
      · rw [if_pos hoo] at h
        cases h; exact ⟨by decide, by simp only [SUB_O, SUB_ON, SUB_OJ, SUB_OJN, VERB_IS, VERB_AS, VERB_OS, VERB_I, VERB_U, VERB_US, ADJ_A, ADJ_AN, ADJ_AJ, ADJ_AJN, ADV_E, ADV_EN]; omega⟩
      rw [if_neg hoo] at h
      by_cases hu : c2 = 'u'
      · rw [if_pos hu] at h
        cases h; exact ⟨by decide, by simp only [SUB_O, SUB_ON, SUB_OJ, SUB_OJN, VERB_IS, VERB_AS, VERB_OS, VERB_I, VERB_U, VERB_US, ADJ_A, ADJ_AN, ADJ_AJ, ADJ_AJN, ADV_E, ADV_EN]; omega⟩
      rw [if_neg hu] at h
      exact Option.noConfusion h
    rw [if_neg hs] at h
    by_cases hn : c1 = 'n'
    · rw [if_pos hn] at h
      by_cases hg4 : w.length < 4
      · rw [if_pos hg4] at h
        exact Option.noConfusion h
      rw [if_neg hg4] at h
      by_cases hoo : c2 = 'o'
      · rw [if_pos hoo] at h
        cases h; exact ⟨by decide, by simp only [SUB_O, SUB_ON, SUB_OJ, SUB_OJN, VERB_IS, VERB_AS, VERB_OS, VERB_I, VERB_U, VERB_US, ADJ_A, ADJ_AN, ADJ_AJ, ADJ_AJN, ADV_E, ADV_EN]; omega⟩
      rw [if_neg hoo] at h
      by_cases ha : c2 = 'a'
      · rw [if_pos ha] at h
        cases h; exact ⟨by decide, by simp only [SUB_O, SUB_ON, SUB_OJ, SUB_OJN, VERB_IS, VERB_AS, VERB_OS, VERB_I, VERB_U, VERB_US, ADJ_A, ADJ_AN, ADJ_AJ, ADJ_AJN, ADV_E, ADV_EN]; omega⟩
      rw [if_neg ha] at h
      by_cases he : c2 = 'e'
      · rw [if_pos he] at h
        cases h; exact ⟨by decide, by simp only [SUB_O, SUB_ON, SUB_OJ, SUB_OJN, VERB_IS, VERB_AS, VERB_OS, VERB_I, VERB_U, VERB_US, ADJ_A, ADJ_AN, ADJ_AJ, ADJ_AJN, ADV_E, ADV_EN]; omega⟩
      rw [if_neg he] at h
      by_cases hj : c2 = 'j'
      · rw [if_pos hj] at h
        by_cases hg5 : w.length < 5
        · rw [if_pos hg5] at h
          exact Option.noConfusion h
        rw [if_neg hg5] at h
        by_cases h3o : c3 = 'o'
        · rw [if_pos h3o] at h
          cases h; exact ⟨by decide, by simp only [SUB_O, SUB_ON, SUB_OJ, SUB_OJN, VERB_IS, VERB_AS, VERB_OS, VERB_I, VERB_U, VERB_US, ADJ_A, ADJ_AN, ADJ_AJ, ADJ_AJN, ADV_E, ADV_EN]; omega⟩
        rw [if_neg h3o] at h
        by_cases h3a : c3 = 'a'
        · rw [if_pos h3a] at h
          cases h; exact ⟨by decide, by simp only [SUB_O, SUB_ON, SUB_OJ, SUB_OJN, VERB_IS, VERB_AS, VERB_OS, VERB_I, VERB_U, VERB_US, ADJ_A, ADJ_AN, ADJ_AJ, ADJ_AJN, ADV_E, ADV_EN]; omega⟩
        rw [if_neg h3a] at h
        exact Option.noConfusion h
      rw [if_neg hj] at h
      exact Option.noConfusion h
    rw [if_neg hn] at h
    by_cases hjj : c1 = 'j'
    · rw [if_pos hjj] at h
      by_cases hg4 : w.length < 4
      · rw [if_pos hg4] at h
        exact Option.noConfusion h
      rw [if_neg hg4] at h
      by_cases hoo : c2 = 'o'
      · rw [if_pos hoo] at h
        cases h; exact ⟨by decide, by simp only [SUB_O, SUB_ON, SUB_OJ, SUB_OJN, VERB_IS, VERB_AS, VERB_OS, VERB_I, VERB_U, VERB_US, ADJ_A, ADJ_AN, ADJ_AJ, ADJ_AJN, ADV_E, ADV_EN]; omega⟩
      rw [if_neg hoo] at h
      by_cases ha : c2 = 'a'
      · rw [if_pos ha] at h
        cases h; exact ⟨by decide, by simp only [SUB_O, SUB_ON, SUB_OJ, SUB_OJN, VERB_IS, VERB_AS, VERB_OS, VERB_I, VERB_U, VERB_US, ADJ_A, ADJ_AN, ADJ_AJ, ADJ_AJN, ADV_E, ADV_EN]; omega⟩
      rw [if_neg ha] at h
      exact Option.noConfusion h
    rw [if_neg hjj] at h
    by_cases haa : c1 = 'a'
    · rw [if_pos haa] at h
      cases h
      exact ⟨by decide, by simp only [SUB_O, SUB_ON, SUB_OJ, SUB_OJN, VERB_IS, VERB_AS, VERB_OS, VERB_I, VERB_U, VERB_US, ADJ_A, ADJ_AN, ADJ_AJ, ADJ_AJN, ADV_E, ADV_EN]; omega⟩
    rw [if_neg haa] at h
    by_cases hee : c1 = 'e'
    · rw [if_pos hee] at h
      cases h
      exact ⟨by decide, by simp only [SUB_O, SUB_ON, SUB_OJ, SUB_OJN, VERB_IS, VERB_AS, VERB_OS, VERB_I, VERB_U, VERB_US, ADJ_A, ADJ_AN, ADJ_AJ, ADJ_AJN, ADV_E, ADV_EN]; omega⟩
    rw [if_neg hee] at h
    by_cases hii : c1 = 'i'
    · rw [if_pos hii] at h
      cases h
      exact ⟨by decide, by simp only [SUB_O, SUB_ON, SUB_OJ, SUB_OJN, VERB_IS, VERB_AS, VERB_OS, VERB_I, VERB_U, VERB_US, ADJ_A, ADJ_AN, ADJ_AJ, ADJ_AJN, ADV_E, ADV_EN]; omega⟩
    rw [if_neg hii] at h
    by_cases huu : c1 = 'u'
    · rw [if_pos huu] at h
      cases h
      exact ⟨by decide, by simp only [SUB_O, SUB_ON, SUB_OJ, SUB_OJN, VERB_IS, VERB_AS, VERB_OS, VERB_I, VERB_U, VERB_US, ADJ_A, ADJ_AN, ADJ_AJ, ADJ_AJN, ADV_E, ADV_EN]; omega⟩
    rw [if_neg huu] at h
    exact Option.noConfusion h

theorem exception_form_nonDotLen (word : List Char)
    (h : exception_form word ≠ []) :
    nonDotLen (exception_form word) = word.length := by
  unfold exception_form at h ⊢
  split_ifs at h ⊢ with h1 h2 h3 h4 h5 h6 h7
  · subst h1; decide
  · subst h2; decide
  · subst h3; decide
  · subst h4; decide
  · subst h5; decide
  · subst h6; decide
  · subst h7; decide
  · exact absurd rfl h

theorem display_nonDotLen (ml : Morphemes) :
    nonDotLen ml.display_form = ml.wordsLenFrom 0 + nonDotLen ml.ending.ending := by
  unfold Morphemes.display_form
  have key : ∀ (L : List Nat) (acc : List Char),
      nonDotLen (L.foldl
        (fun acc i =>
          match ml.morpheme_list.get? i with
          | some m => acc ++ '.' :: m.word
          | none => acc) acc) =
      nonDotLen acc + (L.map (fun j => nonDotLen (ml.wordAt j))).sum := by
    intro L
    induction L with
    | nil => intro acc; simp
    | cons i L ih =>
      intro acc
      rw [List.foldl_cons, ih, List.map_cons, List.sum_cons]
      rcases hg : ml.morpheme_list.get? i with _ | m
      · unfold Morphemes.wordAt
        rw [hg]
        simp [nonDotLen, removeDots]
      · unfold Morphemes.wordAt
        rw [hg]
        rw [nonDotLen_append, nonDotLen_dot_cons]
        ring
  rw [nonDotLen_append, nonDotLen_dot_cons, key]
  have hs0 : nonDotLen
      (match ml.morpheme_list.get? 0 with
        | some m => m.word
        | none => []) = nonDotLen (ml.wordAt 0) := rfl
  rw [hs0]
  unfold Morphemes.wordsLenFrom
  have hr0 : List.range' 0 (ml.last_index + 1 - 0) =
      0 :: List.range' 1 ml.last_index := by
    rw [show ml.last_index + 1 - 0 = ml.last_index + 1 from rfl,
      List.range'_succ]
  rw [hr0, List.map_cons, List.sum_cons]

/-- Core of C2: for a hyphen-free, period-free token and a well-formed
dictionary, whenever check_word returns a result, the non-period characters
of the rendered word are exactly the characters of the token. -/
theorem check_word_removeDots (dict : Dict) (hWF : WFdict dict) (t : List Char)
    (ht : ∀ c ∈ t, is_hyphen c = false ∧ c ≠ '.') (r : AnalysisResult)
    (h : check_word t dict = some r) :
    removeDots r.word = t := by
  have htd : ∀ c ∈ t, c ≠ '.' := fun c hc => (ht c hc).2
  have hth : ∀ c ∈ t, is_hyphen c = false := fun c hc => (ht c hc).1
  have hwdot : ∀ c ∈ rustLowerStr t, c ≠ '.' := rustLowerStr_ne_dot t htd
  have hwlen : t.length ≤ (rustLowerStr t).length := rustLowerStr_length_ge t
  have hwnd : nonDotLen (rustLowerStr t) = (rustLowerStr t).length :=
    nonDotLen_of_dotfree _ hwdot
  have hmain : ∀ r : AnalysisResult, check_word_main t dict = some r →
      removeDots r.word = t := by
    intro r h
    unfold check_word_main at h
    dsimp only at h
    rw [remove_hyphens_eq_self t hth] at h
    have hwith : ∀ r : AnalysisResult,
        check_word_with_ending t (rustLowerStr t) dict = some r →
        removeDots r.word = t := by
      intro r h
      unfold check_word_with_ending at h
      rcases hend : Ending.new (rustLowerStr t) with _ | ed
      · rw [hend] at h
        exact (analysisResult_filter h htd (by omega)).1
      · rw [hend] at h
        dsimp only at h
        obtain ⟨hedn, hedl⟩ := ending_facts _ ed hend
        have hstemlen : ((rustLowerStr t).take
            ((rustLowerStr t).length - ed.length)).length =
            (rustLowerStr t).length - ed.length := by
          rw [List.length_take]; omega
        have hcomp : ∀ r : AnalysisResult,
            check_word_compound t (rustLowerStr t)
              ((rustLowerStr t).take ((rustLowerStr t).length - ed.length))
              ed dict = some r →
            removeDots r.word = t := by
          intro r h
          unfold check_word_compound at h
          dsimp only at h
          by_cases hf : (find_morpheme dict
              ((rustLowerStr t).take ((rustLowerStr t).length - ed.length)) 0
              (Morphemes.new ed)).1 = true
          · rw [if_pos hf] at h
            obtain ⟨hpre, hpost⟩ := (search_master dict hWF _ _ rfl).2.1 0
              (Morphemes.new ed) (by simp [Morphemes.new])
            obtain ⟨hscan, hle, hwl⟩ := hpost hf
            have hend2 : (find_morpheme dict
                ((rustLowerStr t).take ((rustLowerStr t).length - ed.length)) 0
                (Morphemes.new ed)).2.ending = ed := hpre.1
            have hdisp : nonDotLen ((find_morpheme dict
                ((rustLowerStr t).take ((rustLowerStr t).length - ed.length)) 0
                (Morphemes.new ed)).2.display_form) =
                (rustLowerStr t).length := by
              rw [display_nonDotLen, hwl, hend2, hedn, hstemlen]
              omega
            exact (analysisResult_filter h htd (by omega)).1
          · rw [if_neg hf] at h
            exact (analysisResult_filter h htd (by omega)).1
        rcases hds : dict ((rustLowerStr t).take
            ((rustLowerStr t).length - ed.length)) with _ | entry2
        · rw [hds] at h
          exact hcomp r h
        · rw [hds] at h
          dsimp only at h
          by_cases hwe : entry2.with_ending = WithEnding.Yes
          · rw [if_pos hwe] at h
            have hna : nonDotLen (entry2.word ++ '.' :: ed.ending) =
                (rustLowerStr t).length := by
              rw [nonDotLen_append, nonDotLen_dot_cons, (hWF _ entry2 hds).2,
                hedn, hstemlen]
              omega
            exact (analysisResult_filter h htd (by omega)).1
          · rw [if_neg hwe] at h
            exact hcomp r h
    have hafter : ∀ r : AnalysisResult,
        check_word_after_exceptions t (rustLowerStr t) dict = some r →
        removeDots r.word = t := by
      intro r h
      unfold check_word_after_exceptions at h
      rcases hdw : dict (rustLowerStr t) with _ | entry
      · rw [hdw] at h
        exact hwith r h
      · rw [hdw] at h
        dsimp only at h
        by_cases hwo : entry.without_ending = WithoutEnding.Yes
        · rw [if_pos hwo] at h
          have hna : nonDotLen entry.word = (rustLowerStr t).length :=
            (hWF _ entry hdw).2
          exact (analysisResult_filter h htd (by omega)).1
        · rw [if_neg hwo] at h
          exact hwith r h
    by_cases h5 : (rustLowerStr t).length < 5
    · rw [if_pos h5] at h
      by_cases hexc : exception_form (rustLowerStr t) ≠ []
      · rw [if_pos hexc] at h
        have hna := exception_form_nonDotLen _ hexc
        exact (analysisResult_filter h htd (by omega)).1
      · rw [if_neg hexc] at h
        exact hafter r h
    · rw [if_neg h5] at h
      exact hafter r h
  unfold check_word at h
  by_cases h1 : t.length = 1
  · rw [if_pos h1] at h
    obtain ⟨c, rfl⟩ := List.length_eq_one.1 h1
    have hc : c ≠ '.' := htd c (by simp)
    have h1c : nonDotLen [c] = 1 := by
      rw [nonDotLen_cons_ne c [] hc]
      rfl
    have h' : (if is_word_char c = true then AnalysisResult.new [c] [c] true
        else AnalysisResult.new [c] [c] false) = some r := h
    split_ifs at h' with hw
    · exact (analysisResult_filter h' htd (by simp [h1c])).1
    · exact (analysisResult_filter h' htd (by simp [h1c])).1
  · rw [if_neg h1] at h
    by_cases h2 : 2 < t.length
    · rw [if_pos h2] at h
      rcases hg : t.get? 1 with _ | csec
      · rw [hg] at h
        exact hmain r h
      · rw [hg] at h
        dsimp only at h
        have hcs : is_hyphen csec = false := hth csec (List.get?_mem hg)
        rw [if_neg (by simp [hcs])] at h
        exact hmain r h
    · rw [if_neg h2] at h
      exact hmain r h

/-- Lowercasing leaves a string unchanged when each of its characters is its
own lowercase form. -/
theorem rustLowerStr_eq_self (l : List Char)
    (h : ∀ c ∈ l, rustLowerChar c = [c]) : rustLowerStr l = l := by
  induction l with
  | nil => rfl
  | cons c cs ih =>
    rw [rustLowerStr_cons, h c (by simp), ih (fun d hd => h d (by simp [hd]))]
    rfl

/-- C2 (amended): for a well-formed dictionary and a token containing no
hyphen and no period, whenever check_word returns a result, deleting the
inserted separator periods from the rendered word yields the token itself,
character by character; in particular the non-period character count of the
rendered word equals the character count of the token, and every character
keeps its original casing.  (The unrestricted claim is refuted by
check_word_chars_counterexample: hyphens are deleted from the rendered
word.) -/
theorem check_word_rendered_chars (dict : Dict) (hWF : WFdict dict)
    (t : List Char) (ht : ∀ c ∈ t, is_hyphen c = false ∧ c ≠ '.')
    (r : AnalysisResult) (h : check_word t dict = some r) :
    removeDots r.word = t ∧ nonDotLen r.word = t.length := by
  have hrd := check_word_removeDots dict hWF t ht r h
  refine ⟨hrd, ?_⟩
  rw [nonDotLen, hrd]

/-- Witness for C2 at the concrete token vin and the empty dictionary:
check_word renders vi.n, whose non-period characters are exactly vin. -/
theorem check_word_rendered_chars_witness :
    removeDots (AnalysisResult.mk (str "vi.n") true).word = str "vin" ∧
    nonDotLen (AnalysisResult.mk (str "vi.n") true).word =
      (str "vin").length :=
  check_word_rendered_chars emptyDict (fun _ _ h => Option.noConfusion h)
    (str "vin") (by decide) (AnalysisResult.mk (str "vi.n") true) rfl

/-- Counterexample to C2 as stated: on the token ab-c (which contains a
hyphen) check_word returns the rendered word abc, whose character count 3
differs from the character count 4 of the token, because hyphens are deleted
before analysis and never restored. -/
theorem check_word_chars_counterexample :
    check_word (str "ab-c") emptyDict =
      some { word := str "abc", valid := false } ∧
    nonDotLen (str "abc") ≠ (str "ab-c").length :=
  ⟨rfl, by decide⟩

/-- C6 (amended): for a well-formed dictionary and a token whose characters
are their own lowercase forms and contain no hyphen and no period, whenever
check_word returns a result, removing the periods from the rendered word and
lowercasing it and running check_word again returns the identical result, in
particular the identical segmentation.  (The unrestricted claim is refuted
by check_word_idem_counterexample.) -/
theorem check_word_idempotent (dict : Dict) (hWF : WFdict dict)
    (t : List Char)
    (ht : ∀ c ∈ t, rustLowerChar c = [c] ∧ is_hyphen c = false ∧ c ≠ '.')
    (r : AnalysisResult) (_hv : r.valid = true)
    (h : check_word t dict = some r) :
    check_word (removeDots (rustLowerStr r.word)) dict = some r := by
  have hrd : removeDots r.word = t :=
    check_word_removeDots dict hWF t
      (fun c hc => ⟨(ht c hc).2.1, (ht c hc).2.2⟩) r h
  have hl : rustLowerStr r.word = r.word := by
    apply rustLowerStr_eq_self
    intro c hc
    by_cases hcd : c = '.'
    · subst hcd
      decide
    · have hmem : c ∈ removeDots r.word := by
        simp [removeDots, List.mem_filter, hc, hcd]
      rw [hrd] at hmem
      exact (ht c hmem).1
  rw [hl, hrd]
  exact h

/-- Witness for C6 at the concrete token vin and the empty dictionary:
rerunning check_word on the rendered word vi.n with its period removed
returns the identical result. -/
theorem check_word_idempotent_witness :
    check_word
      (removeDots (rustLowerStr (AnalysisResult.mk (str "vi.n") true).word))
      emptyDict = some (AnalysisResult.mk (str "vi.n") true) :=
  check_word_idempotent emptyDict (fun _ _ h => Option.noConfusion h)
    (str "vin") (by decide) (AnalysisResult.mk (str "vi.n") true) rfl rfl

/-- Counterexample to C6 as stated: the word consisting of the single capital
letter I with a dot above (U+0130) is analyzed as valid, but lowercasing its
rendered word expands it to the two characters i and U+0307, and rerunning
check_word on that input yields a different, invalid result, not the same
segmentation. -/
theorem check_word_idem_counterexample :
    check_word (str "İ") emptyDict =
      some { word := str "İ", valid := true } ∧
    check_word (removeDots (rustLowerStr (str "İ"))) emptyDict =
      some { word := [Char.ofNat 0x69, Char.ofNat 0x307], valid := false } ∧
    ([Char.ofNat 0x69, Char.ofNat 0x307] : List Char) ≠ str "İ" :=
  ⟨rfl, rfl, by decide⟩

unseal find_morpheme try_sizes check_synthesis_cont in
/-- C3 is refuted by a code bug: on the two-character token İa (capital I
with dot above, then a), lowercasing expands the word to three characters,
restore_capitals indexes the two-character original past its end and the
Rust program panics; in this embedding the panic is the value none, so
check_word is not total. -/
theorem check_word_panic_counterexample :
    check_word (str "İa") emptyDict = none := by decide

end Literumilo
